import Mathlib

/-!
# Verification of the TAR per-diem validation system

This file gives a shallow embedding, in Lean 4, of the core logic of the
travel-authorization (TAR) validation repository and proves properties of it.

The repository contains two closely related implementations:

* `updated/tar_build/utils.js` (together with the `main.js` half of the same
  file, which defines `validateTarWithPerDiem`) — embedded below in the
  `TarBuild` namespace;
* the Google-Apps-Script port `utils.gs` / `config.gs` / `main.gs` — embedded
  in the `GasPort` namespace.

JavaScript numbers are modelled by `ℚ` wherever the code only performs
arithmetic on finite values; the possibility of `NaN` and `±Infinity`
(which arises in `generateValidationReport` of `tar_build/utils.js` when
`totalExpected` is `0`) is modelled explicitly by the `JNum` type.
`parseFloat` is modelled on decimal literals (optional sign, integer digits,
optional fraction), which covers every value the surrounding code feeds it;
exponent and hexadecimal forms do not occur in this pipeline.
-/

set_option maxRecDepth 4000

/-- Whitespace characters, modelling the JavaScript `\s` class on the
characters that occur in this pipeline (space, tab, newline, carriage
return, form feed, vertical tab). -/
def isWS (c : Char) : Bool :=
  c = ' ' || c = '\t' || c = '\n' || c = '\r' || c = '\x0c' || c = '\x0b'

/-- Numeric value of a list of decimal digit characters (most significant
first), as `foldl (10*acc + digit)`. -/
def natOfDigits (l : List Char) : ℕ :=
  l.foldl (fun a c => 10 * a + (c.toNat - 48)) 0

/-- Split a character list at every occurrence of the separator character,
modelling `String.prototype.split(sep)` for a single-character separator. -/
def splitOnChar (sep : Char) : List Char → List (List Char)
  | [] => [[]]
  | c :: rest =>
    if c = sep then
      [] :: splitOnChar sep rest
    else
      match splitOnChar sep rest with
      | [] => [[c]]
      | p :: ps => (c :: p) :: ps

/-- Strip leading and trailing whitespace, modelling
`String.prototype.trim`. -/
def trimChars (l : List Char) : List Char :=
  ((l.dropWhile isWS).reverse.dropWhile isWS).reverse

/-- The digit phase of the `parseFloat` model: after the sign, read the
longest prefix `digits [. digits]`; `none` models `NaN` (no digit
found). -/
def parseAfterSign (sign : ℚ) (l : List Char) : Option ℚ :=
  let ds1 := l.takeWhile Char.isDigit
  let rest := l.dropWhile Char.isDigit
  let ds2 :=
    match rest with
    | [] => []
    | c :: t => if c = '.' then t.takeWhile Char.isDigit else []
  if ds1.isEmpty && ds2.isEmpty then none
  else some (sign * ((natOfDigits ds1 : ℚ) + (natOfDigits ds2 : ℚ) / 10 ^ ds2.length))

/-- Model of JavaScript `parseFloat` on a character list: skip leading
whitespace, read an optional sign, then the digit phase.  Exponents and
special forms are not modelled; the repository only feeds this function
decimal rate and cost strings. -/
def parseFloatChars (l : List Char) : Option ℚ :=
  match l.dropWhile isWS with
  | [] => parseAfterSign 1 []
  | c :: t =>
    if c = '-' then parseAfterSign (-1) t
    else if c = '+' then parseAfterSign 1 t
    else parseAfterSign 1 (c :: t)

/-- Model of JavaScript `parseFloat` on strings. -/
def jsParseFloat (s : String) : Option ℚ :=
  parseFloatChars s.toList

/-- Strict variant used to model `Number(string)`: the whole character
list must be one signed decimal literal. -/
def parseFloatCharsStrict (l : List Char) : Option ℚ :=
  let sign : ℚ × List Char :=
    match l with
    | [] => (1, l)
    | c :: t => if c = '-' then (-1, t) else if c = '+' then (1, t) else (1, l)
  let ds1 := sign.2.takeWhile Char.isDigit
  let rest := sign.2.dropWhile Char.isDigit
  let frac : List Char × List Char :=
    match rest with
    | [] => ([], rest)
    | c :: t => if c = '.' then (t.takeWhile Char.isDigit, t.dropWhile Char.isDigit) else ([], rest)
  if (ds1.isEmpty && frac.1.isEmpty) || !frac.2.isEmpty then none
  else some (sign.1 * ((natOfDigits ds1 : ℚ) + (natOfDigits frac.1 : ℚ) / 10 ^ frac.1.length))

/-- A JavaScript number that may be non-finite: the result of dividing by
zero (`±Infinity`) or `0/0` (`NaN`). -/
inductive JNum where
  | fin (q : ℚ)
  | posInf
  | negInf
  | nan
deriving DecidableEq, Repr

namespace JNum

/-- JavaScript division, with the IEEE conventions for division by zero. -/
def div : JNum → JNum → JNum
  | fin a, fin b =>
    if b = 0 then
      if a = 0 then nan
      else if 0 < a then posInf
      else negInf
    else fin (a / b)
  | nan, _ => nan
  | _, nan => nan
  | posInf, fin b => if 0 ≤ b then posInf else negInf
  | negInf, fin b => if 0 ≤ b then negInf else posInf
  | _, _ => nan

/-- Multiplication by a positive finite constant (the only multiplication
the embedded code performs on possibly non-finite values). -/
def mulPos (x : JNum) (k : ℚ) : JNum :=
  match x with
  | fin q => fin (q * k)
  | posInf => posInf
  | negInf => negInf
  | nan => nan

/-- JavaScript `Math.abs`, extended to non-finite values. -/
def abs : JNum → JNum
  | fin q => fin |q|
  | posInf => posInf
  | negInf => posInf
  | nan => nan

/-- JavaScript `x <= k` for a finite right-hand side; comparisons against
`NaN` are false. -/
def leQ (x : JNum) (k : ℚ) : Bool :=
  match x with
  | fin q => decide (q ≤ k)
  | posInf => false
  | negInf => true
  | nan => false

/-- JavaScript `x > k` for a finite right-hand side; comparisons against
`NaN` are false. -/
def gtQ (x : JNum) (k : ℚ) : Bool :=
  match x with
  | fin q => decide (k < q)
  | posInf => true
  | negInf => false
  | nan => false

end JNum

/-- Rounding to two decimal places, half towards positive infinity; this is
the numeric content of `Number.prototype.toFixed(2)` on the rational values
arising here (`x.toFixed(2)` picks the larger candidate on ties). -/
def round2 (q : ℚ) : ℚ :=
  (round (100 * q) : ℤ) / 100

/-- `toFixed(2)` on a possibly non-finite number: finite values are rounded
to two decimals, `Infinity`/`NaN` print (and re-parse) as themselves. -/
def jToFixed2 : JNum → JNum
  | JNum.fin q => JNum.fin (round2 q)
  | x => x

namespace TarBuild

/-- A value appearing in a GSA monthly-rate array: a number, a string, or
absent (`undefined`/`null`). -/
inductive RVal where
  | num (q : ℚ)
  | str (s : String)
  | missing
deriving DecidableEq, Repr

/-- Embedding of `parseRate` from `average` in
`updated/tar_build/utils.js` (and identically `utils.gs`): `undefined`/
`null` are unparseable; a string containing a hyphen is first tried as a
`low-high` range (midpoint); otherwise the value goes through `parseFloat`.
`none` models `NaN`. -/
def parseRate : RVal → Option ℚ
  | RVal.missing => none
  | RVal.num q => some q
  | RVal.str s =>
    if s.toList.contains '-' then
      let parts := splitOnChar '-' s.toList
      match parseFloatChars (trimChars (parts.getD 0 [])),
            parseFloatChars (trimChars (parts.getD 1 [])) with
      | some low, some high => some ((low + high) / 2)
      | _, _ => parseFloatChars s.toList
    else parseFloatChars s.toList

/-- Embedding of `average` from `updated/tar_build/utils.js` (lines 35-62;
identical logic in `utils.gs`): parse every value, keep the parseable ones,
and return their mean, or `0` when none parse.  The source's
`map(parseRate).filter(n => !isNaN(n))` is the `filterMap` below, since
`none` models `NaN`. -/
def average (values : List RVal) : ℚ :=
  let nums := values.filterMap parseRate
  if nums.isEmpty then 0 else nums.sum / (nums.length : ℚ)

/-- The characters of a decimal literal: optional `-` sign, integer
digits, optional `.` and fraction digits. -/
def litChars (sgn : Bool) (ip fp : List Char) : List Char :=
  (if sgn then ['-'] else []) ++ ip ++ (if fp.isEmpty then [] else '.' :: fp)

/-- The rational value denoted by such a literal. -/
def litVal (sgn : Bool) (ip fp : List Char) : ℚ :=
  (if sgn then -1 else 1) * ((natOfDigits ip : ℚ) + (natOfDigits fp : ℚ) / 10 ^ fp.length)

/-- The entry classification stated by the specification for `average`:
an entry is a number (contributing itself), a numeric string
(contributing its value), a `low-high` range string (contributing the
midpoint of the two bounds), or unparseable/absent (contributing
nothing).  This is the specification-side description against which the
source's `parseRate`/`average` are verified. -/
inductive Represents : RVal → Option ℚ → Prop
  | absent : Represents RVal.missing none
  | number (q : ℚ) : Represents (RVal.num q) (some q)
  | numericStr (s : String) (sgn : Bool) (ip fp : List Char)
      (hs : s.toList = litChars sgn ip fp)
      (hip : ∀ c ∈ ip, c.isDigit = true) (hfp : ∀ c ∈ fp, c.isDigit = true)
      (hne : ip ≠ [] ∨ fp ≠ []) :
      Represents (RVal.str s) (some (litVal sgn ip fp))
  | rangeStr (s : String) (ip1 fp1 ip2 fp2 : List Char)
      (hs : s.toList = litChars false ip1 fp1 ++ '-' :: litChars false ip2 fp2)
      (h1 : ∀ c ∈ ip1, c.isDigit = true) (h2 : ∀ c ∈ fp1, c.isDigit = true)
      (h3 : ∀ c ∈ ip2, c.isDigit = true) (h4 : ∀ c ∈ fp2, c.isDigit = true)
      (hne1 : ip1 ≠ [] ∨ fp1 ≠ []) (hne2 : ip2 ≠ [] ∨ fp2 ≠ []) :
      Represents (RVal.str s) (some ((litVal false ip1 fp1 + litVal false ip2 fp2) / 2))
  | unparseable (s : String) (h : parseRate (RVal.str s) = none) :
      Represents (RVal.str s) none

/-- The mean demanded by the specification: average of the contributed
values, `0` when no entry contributes. -/
def optMean (sems : List (Option ℚ)) : ℚ :=
  let qs := sems.reduceOption
  if qs.isEmpty then 0 else qs.sum / (qs.length : ℚ)

end TarBuild

/-- `CONFIG.COST_BUFFER` (same value in `config.js` and `config.gs`). -/
def COST_BUFFER : ℚ := 10

/-- `CONFIG.MAX_DEVIATION_PERCENT` (same value in both configs). -/
def MAX_DEVIATION_PERCENT : ℚ := 15

/-- `CONFIG.DEFAULT_MIE` (same value in both configs). -/
def DEFAULT_MIE : ℚ := 79

/-- `CONFIG.DEFAULT_LODGING` (same value in both configs). -/
def DEFAULT_LODGING : ℚ := 150

/-- One entry of an expected-cost breakdown, as built by
`calculateExpectedCosts` and by the duration branch of
`validateTarWithPerDiem`. -/
structure BreakdownItem where
  location : String
  date : String
  mie : ℚ
  lodging : ℚ
  total : ℚ
deriving DecidableEq, Repr

/-- The pair `{totalExpected, breakdown}`. -/
structure ExpectedCosts where
  totalExpected : ℚ
  breakdown : List BreakdownItem
deriving DecidableEq, Repr

/-- A recommendation entry of a validation report.  The deviation message
interpolates the report's (rounded) variance percent, carried here as its
numeric value. -/
inductive Recommendation where
  | bufferExceeded
  | deviationExceeded (percent : JNum)
  | manualReview
deriving DecidableEq, Repr

namespace TarBuild

/-- `claimedCost - expectedCosts.totalExpected` from
`generateValidationReport` in `updated/tar_build/utils.js` (line 347). -/
def variance (claimedCost totalExpected : ℚ) : ℚ :=
  claimedCost - totalExpected

/-- The `variancePercent` field of `generateValidationReport` in
`updated/tar_build/utils.js` (lines 348-352):
`(((claimedCost - totalExpected) / totalExpected) * 100).toFixed(2)`.
There is no guard for `totalExpected = 0`, so the result can be
`NaN` or `±Infinity`. -/
def variancePercent (claimedCost totalExpected : ℚ) : JNum :=
  jToFixed2 (((JNum.fin (claimedCost - totalExpected)).div (JNum.fin totalExpected)).mulPos 100)

/-- `isWithinBuffer` from `updated/tar_build/utils.js` (lines 353-355):
`Math.abs(claimedCost - totalExpected) <= CONFIG.COST_BUFFER`. -/
def isWithinBuffer (claimedCost totalExpected : ℚ) : Bool :=
  |claimedCost - totalExpected| ≤ COST_BUFFER

/-- `isWithinDeviation` from `updated/tar_build/utils.js` (lines 356-360):
`(Math.abs(claimedCost - totalExpected) / totalExpected) * 100 <=
CONFIG.MAX_DEVIATION_PERCENT`; the absolute value is taken of the numerator
only, and a zero `totalExpected` makes the comparison against `NaN` or
`Infinity` false. -/
def isWithinDeviation (claimedCost totalExpected : ℚ) : Bool :=
  (((JNum.fin |claimedCost - totalExpected|).div (JNum.fin totalExpected)).mulPos 100).leQ
    MAX_DEVIATION_PERCENT

/-- The recommendation list of `generateValidationReport` in
`updated/tar_build/utils.js` (lines 365-385): the buffer message is pushed
when the signed `variance` exceeds `COST_BUFFER`, the deviation message
when `Math.abs` of the stored (string, i.e. rounded) `variancePercent`
exceeds `MAX_DEVIATION_PERCENT`, and the manual-review message when the
breakdown is empty. -/
def recommendations (claimedCost totalExpected : ℚ) (breakdown : List BreakdownItem) :
    List Recommendation :=
  (if COST_BUFFER < variance claimedCost totalExpected then
    [Recommendation.bufferExceeded] else []) ++
  (if (variancePercent claimedCost totalExpected).abs.gtQ MAX_DEVIATION_PERCENT then
    [Recommendation.deviationExceeded (variancePercent claimedCost totalExpected)] else []) ++
  (if breakdown.isEmpty then [Recommendation.manualReview] else [])

/-- The validation part of the report built by `generateValidationReport`
in `updated/tar_build/utils.js` (lines 338-387).  The `timestamp`,
`traveler` and `authorizationNumber` metadata fields are not modelled. -/
structure Report where
  expectedCosts : ExpectedCosts
  claimedCost : ℚ
  variance : ℚ
  variancePercent : JNum
  isWithinBuffer : Bool
  isWithinDeviation : Bool
  recommendations : List Recommendation
deriving DecidableEq, Repr

/-- Embedding of `generateValidationReport` from
`updated/tar_build/utils.js` (lines 338-387). -/
def generateValidationReport (expectedCosts : ExpectedCosts) (claimedCost : ℚ) : Report :=
  { expectedCosts := expectedCosts
    claimedCost := claimedCost
    variance := variance claimedCost expectedCosts.totalExpected
    variancePercent := variancePercent claimedCost expectedCosts.totalExpected
    isWithinBuffer := isWithinBuffer claimedCost expectedCosts.totalExpected
    isWithinDeviation := isWithinDeviation claimedCost expectedCosts.totalExpected
    recommendations := recommendations claimedCost expectedCosts.totalExpected
      expectedCosts.breakdown }

/-- The final validity flag of `validateTarWithPerDiem`
(`updated/tar_build/utils.js` lines 671-674):
`isWithinBuffer && isWithinDeviation`. -/
def tarIsValid (r : Report) : Bool :=
  r.isWithinBuffer && r.isWithinDeviation

/-- The GSA rate object as consumed by the cost calculators: the `Meals`
numeric-string field and the twelve month fields `Jan` … `Dec` (in that
order) as fed to `average`. -/
structure GsaRate where
  Meals : String
  months : List RVal
deriving DecidableEq, Repr

/-- `parseFloat(s) || d`: a failed parse (`NaN`) and a zero result are both
falsy and fall back to the default. -/
def parseFloatOr (s : String) (d : ℚ) : ℚ :=
  match jsParseFloat s with
  | some q => if q = 0 then d else q
  | none => d

/-- The M&IE rate chosen by the duration branch of `validateTarWithPerDiem`
(`updated/tar_build/utils.js` lines 621-625):
`parseFloat(rateData.Meals) || CONFIG.DEFAULT_MIE`, with the default when
the lookup returned no rate. -/
def mieOf (rateData : Option GsaRate) : ℚ :=
  match rateData with
  | some r => parseFloatOr r.Meals DEFAULT_MIE
  | none => DEFAULT_MIE

/-- The averaged lodging rate chosen by the duration branch
(`updated/tar_build/utils.js` lines 622-639): `average` of the twelve
month values, or `CONFIG.DEFAULT_LODGING` when the lookup returned no
rate. -/
def lodgingOf (rateData : Option GsaRate) : ℚ :=
  match rateData with
  | some r => average r.months
  | none => DEFAULT_LODGING

/-- Embedding of the duration-mode expected-cost computation of
`validateTarWithPerDiem` (`updated/tar_build/utils.js` lines 609-659):
no itinerary is present, so a single rate lookup for the primary
city/state yields `dailyTotal = mie + avgLodging`, and
`totalExpected = dailyTotal * duration` with one breakdown item located at
`"<city>, <state>"` and dated `mergedData.tripDate`, falling back to the
current date (`todayStr`). -/
def durationExpectedCosts (rateData : Option GsaRate) (city state : String)
    (duration : ℕ) (tripDate todayStr : String) : ExpectedCosts :=
  let mie := mieOf rateData
  let avgLodging := lodgingOf rateData
  let dailyTotal := mie + avgLodging
  { totalExpected := dailyTotal * duration
    breakdown := [{ location := city ++ ", " ++ state
                    date := if tripDate ≠ "" then tripDate else todayStr
                    mie := mie
                    lodging := avgLodging
                    total := dailyTotal }] }

end TarBuild

namespace GasPort

/-- The raw `variancePercent` value computed by `generateValidationReport`
in the Apps-Script port `utils.gs` (line 253): guarded to `0` when
`totalExpected` is `0`, so it is always a finite rational. -/
def variancePercentRaw (claimedCost totalExpected : ℚ) : ℚ :=
  if totalExpected = 0 then 0 else (claimedCost - totalExpected) / totalExpected * 100

/-- The stored `variancePercent` report field of `utils.gs` (line 263):
the raw value through `toFixed(2)`. -/
def variancePercent (claimedCost totalExpected : ℚ) : ℚ :=
  round2 (variancePercentRaw claimedCost totalExpected)

/-- `isWithinBuffer` from `utils.gs` (line 264). -/
def isWithinBuffer (claimedCost totalExpected : ℚ) : Bool :=
  |claimedCost - totalExpected| ≤ COST_BUFFER

/-- `isWithinDeviation` from `utils.gs` (line 265):
`Math.abs(variancePercent) <= CONFIG.MAX_DEVIATION_PERCENT`, computed on
the raw (unrounded) variance percent variable. -/
def isWithinDeviation (claimedCost totalExpected : ℚ) : Bool :=
  |variancePercentRaw claimedCost totalExpected| ≤ MAX_DEVIATION_PERCENT

/-- The recommendation list of `generateValidationReport` in `utils.gs`
(lines 269-279): the buffer message is pushed exactly when
`isWithinBuffer === false`, the deviation message exactly when
`isWithinDeviation === false`, and the manual-review message when the
breakdown is empty. -/
def recommendations (claimedCost totalExpected : ℚ) (breakdown : List BreakdownItem) :
    List Recommendation :=
  (if isWithinBuffer claimedCost totalExpected = false then
    [Recommendation.bufferExceeded] else []) ++
  (if isWithinDeviation claimedCost totalExpected = false then
    [Recommendation.deviationExceeded (JNum.fin (variancePercent claimedCost totalExpected))]
   else []) ++
  (if breakdown.isEmpty then [Recommendation.manualReview] else [])

/-- The validation part of the report built by `generateValidationReport`
in `utils.gs` (lines 251-280); metadata fields are not modelled. -/
structure Report where
  expectedCosts : ExpectedCosts
  claimedCost : ℚ
  variance : ℚ
  variancePercent : ℚ
  isWithinBuffer : Bool
  isWithinDeviation : Bool
  recommendations : List Recommendation
deriving DecidableEq, Repr

/-- Embedding of `generateValidationReport` from `utils.gs`
(lines 251-280). -/
def generateValidationReport (expectedCosts : ExpectedCosts) (claimedCost : ℚ) : Report :=
  { expectedCosts := expectedCosts
    claimedCost := claimedCost
    variance := claimedCost - expectedCosts.totalExpected
    variancePercent := variancePercent claimedCost expectedCosts.totalExpected
    isWithinBuffer := isWithinBuffer claimedCost expectedCosts.totalExpected
    isWithinDeviation := isWithinDeviation claimedCost expectedCosts.totalExpected
    recommendations := recommendations claimedCost expectedCosts.totalExpected
      expectedCosts.breakdown }

end GasPort

/-- A JavaScript field value as stored in a (merged) TAR data object:
absent (`undefined`), `null`, a string, or a number. -/
inductive JSVal where
  | undef
  | null
  | str (s : String)
  | num (q : ℚ)
deriving DecidableEq, Repr

/-- JavaScript truthiness of a field value (`if (data.field)`); the string
`""` and the number `0` are falsy.  (`NaN` is not representable in the `ℚ`
model.) -/
def truthy : JSVal → Bool
  | JSVal.undef => false
  | JSVal.null => false
  | JSVal.str s => s ≠ ""
  | JSVal.num q => q ≠ 0

/-- `String.prototype.trim`, on the whitespace characters modelled by
`isWS`. -/
def strTrim (s : String) : String :=
  String.mk (trimChars s.toList)

namespace GasPort

/-- The form-data fields inspected by `validateFormData`.  Only the five
required fields plus `vendorCode` take part in the checks. -/
structure FormData where
  travelerName : JSVal
  travelPurpose : JSVal
  estimatedCost : JSVal
  dutyStation : JSVal
  contactNumber : JSVal
  vendorCode : JSVal
deriving DecidableEq, Repr

/-- `CONFIG.VALIDATION_RULES.requiredFields` (`config.gs` line 57) paired
with the corresponding field values, in configuration order. -/
def requiredPairs (d : FormData) : List (String × JSVal) :=
  [("travelerName", d.travelerName),
   ("travelPurpose", d.travelPurpose),
   ("estimatedCost", d.estimatedCost),
   ("dutyStation", d.dutyStation),
   ("contactNumber", d.contactNumber)]

/-- The per-field test of the required-field loop of `validateFormData`
(`utils.gs` lines 172-179, identical in `updated/tar_build/utils.js`
lines 238-245): missing when `undefined`, `null`, or a string that is
blank after trimming. -/
def missingRequired : JSVal → Bool
  | JSVal.undef => true
  | JSVal.null => true
  | JSVal.str s => strTrim s = ""
  | JSVal.num _ => false

/-- Errors produced by the required-field loop. -/
def requiredErrors (d : FormData) : List String :=
  (requiredPairs d).filterMap fun p =>
    if missingRequired p.2 then some ("Missing required field: " ++ p.1) else none

/-- `CONFIG.VALIDATION_RULES.vendorCodeFormat = /^E\d{8,9}$/`
(`config.gs` line 60): the letter `E` followed by 8 or 9 digits. -/
def vendorCodeFormat (s : String) : Bool :=
  match s.toList with
  | 'E' :: rest => rest.all Char.isDigit && (rest.length = 8 || rest.length = 9)
  | _ => false

/-- The vendor-code check (`utils.gs` lines 181-186): applied only when the
field is truthy; the value goes through `String(...)` and `trim`.  A
numeric value can never match, since `String(number)` never starts with
`E`. -/
def vendorErrors (d : FormData) : List String :=
  if truthy d.vendorCode then
    match d.vendorCode with
    | JSVal.str s => if vendorCodeFormat (strTrim s) then [] else ["Invalid vendor code format"]
    | _ => ["Invalid vendor code format"]
  else []

/-- The separator strip of the phone check (`utils.gs` line 189):
`String(value).replace(/[\s\-\(\)]/g, '')`. -/
def stripPhoneChars (l : List Char) : List Char :=
  l.filter fun c => !(isWS c || c = '-' || c = '(' || c = ')')

/-- `CONFIG.VALIDATION_RULES.phoneFormat = /^[\+]?\d{7,15}$/`
(`config.gs` line 59): an optional leading `+` followed by 7 to 15
digits.  (The `updated/config.js` variant of this rule uses a different
pattern; this embedding follows `config.gs`, the configuration cited for
this validator.) -/
def phoneFormat (l : List Char) : Bool :=
  let ds := match l with
    | '+' :: t => t
    | _ => l
  ds.all Char.isDigit && decide (7 ≤ ds.length) && decide (ds.length ≤ 15)

/-- The contact-number check (`utils.gs` lines 188-193): applied only when
the field is truthy.  For a numeric value, `String(q)` of an integer is
its plain digit string with a possible `-` sign, and the sign is removed
by the separator strip; a non-integral number prints with a decimal point
and can never match the digits-only pattern. -/
def phoneErrors (d : FormData) : List String :=
  if truthy d.contactNumber then
    match d.contactNumber with
    | JSVal.str s =>
      if phoneFormat (stripPhoneChars s.toList) then [] else ["Invalid phone number format"]
    | JSVal.num q =>
      if q.den = 1 && phoneFormat (toString q.num.natAbs).toList then []
      else ["Invalid phone number format"]
    | _ => ["Invalid phone number format"]
  else []

/-- `Number(s)` on a string, modelled for decimal literals: blank strings
coerce to `0`, otherwise the whole string must be a signed decimal
literal.  `none` models `NaN`. -/
def jsNumberOfString (s : String) : Option ℚ :=
  if trimChars s.toList = [] then some 0
  else
    match parseFloatCharsStrict (trimChars s.toList) with
    | some q => some q
    | none => none

/-- The estimated-cost check (`utils.gs` lines 195-197): applied only when
the field is truthy; an error when the value is `NaN` or not positive. -/
def costErrors (d : FormData) : List String :=
  if truthy d.estimatedCost then
    match d.estimatedCost with
    | JSVal.num q => if q ≤ 0 then ["Invalid estimated cost"] else []
    | JSVal.str s =>
      match jsNumberOfString s with
      | some q => if q ≤ 0 then ["Invalid estimated cost"] else []
      | none => ["Invalid estimated cost"]
    | _ => []
  else []

/-- Embedding of `validateFormData` (`utils.gs` lines 169-199, identical
logic in `updated/tar_build/utils.js` lines 235-275): the accumulated
error list and the `isValid` flag (`errors.length === 0`). -/
def validateFormData (d : FormData) : Bool × List String :=
  let errors := requiredErrors d ++ vendorErrors d ++ phoneErrors d ++ costErrors d
  (errors.isEmpty, errors)

end GasPort

namespace DocProcessor

/-- Consume exactly `n` leading digit characters, returning the rest. -/
def eatDigits : ℕ → List Char → Option (List Char)
  | 0, l => some l
  | _ + 1, [] => none
  | n + 1, c :: l => if c.isDigit then eatDigits n l else none

/-- Consume one expected leading character, returning the rest. -/
def eatChar (x : Char) : List Char → Option (List Char)
  | [] => none
  | c :: l => if c = x then some l else none

/-- Does a match of `\d{a}sep\d{b}sep\d{4}` start at the head of the
list? -/
def matchSepAt (sep : Char) (l : List Char) (a b : ℕ) : Bool :=
  ((((eatDigits a l).bind (eatChar sep)).bind (eatDigits b)).bind (eatChar sep)).bind
    (eatDigits 4) |>.isSome

/-- Does a match of `\d{1,2}sep\d{1,2}sep\d{4}` start at the head of the
list?  The four digit-count combinations cover the backtracking choices of
the `{1,2}` quantifiers. -/
def startsDatePat (sep : Char) (l : List Char) : Bool :=
  matchSepAt sep l 1 1 || matchSepAt sep l 1 2 || matchSepAt sep l 2 1 || matchSepAt sep l 2 2

/-- Unanchored test of `/\d{1,2}sep\d{1,2}sep\d{4}/` on a character list,
modelling `RegExp.prototype.test` for the two date-shape regexes of
`normalizeDate`. -/
def containsDatePat (sep : Char) : List Char → Bool
  | [] => false
  | c :: rest => startsDatePat sep (c :: rest) || containsDatePat sep rest

/-- `String.prototype.padStart(2, "0")`. -/
def pad2 (l : List Char) : List Char :=
  List.replicate (2 - l.length) '0' ++ l

/-- The rewritten `"${parts[2]}-${pad(parts[0])}-${pad(parts[1])}"`
template of `normalizeDate` (`updated/document_processor.js`
lines 542-556). -/
def isoJoin (parts : List (List Char)) : List Char :=
  parts.getD 2 [] ++ '-' :: (pad2 (parts.getD 0 []) ++ '-' :: pad2 (parts.getD 1 []))

/-- Gregorian leap-year rule. -/
def isLeap (y : ℕ) : Bool :=
  (y % 4 = 0 && y % 100 ≠ 0) || y % 400 = 0

/-- Days in a month of the Gregorian calendar (`0` for an invalid month
number). -/
def daysInMonth (y m : ℕ) : ℕ :=
  if m = 1 || m = 3 || m = 5 || m = 7 || m = 8 || m = 10 || m = 12 then 31
  else if m = 4 || m = 6 || m = 9 || m = 11 then 30
  else if m = 2 then (if isLeap y then 29 else 28)
  else 0

/-- Validity of a year/month/day triple as a calendar date. -/
def dateOk (y m d : ℕ) : Bool :=
  decide (1 ≤ m) && decide (m ≤ 12) && decide (1 ≤ d) && decide (d ≤ daysInMonth y m)

/-- Model of the `new Date(normalized)` validity check of `normalizeDate`
(lines 559-561) on the rewritten candidates: a string of the exact shape
`YYYY-MM-DD` naming a valid calendar date parses, anything else is an
invalid date.  (The candidates are always produced by `isoJoin`, whose
month and day parts are zero-padded; a candidate whose year part is not
four digits is rejected by the JavaScript ISO parser as well.) -/
def jsValidDate (l : List Char) : Bool :=
  match l with
  | [y1, y2, y3, y4, h1, m1, m2, h2, d1, d2] =>
    h1 = '-' && h2 = '-' && [y1, y2, y3, y4, m1, m2, d1, d2].all Char.isDigit &&
    dateOk (natOfDigits [y1, y2, y3, y4]) (natOfDigits [m1, m2]) (natOfDigits [d1, d2])
  | _ => false

/-- Embedding of the body of `normalizeDate`
(`updated/document_processor.js` lines 533-569) on a non-empty input: if
the slash date shape occurs in the string, rewrite from the `/`-split
parts; then (testing the original string) if the dash shape occurs,
rewrite from the `-`-split parts; finally keep the rewritten string if it
is a valid date and return the original string otherwise. -/
def normalizeDateRun (s : String) : String :=
  let l := s.toList
  let n1 := if containsDatePat '/' l then isoJoin (splitOnChar '/' l) else l
  let n2 := if containsDatePat '-' l then isoJoin (splitOnChar '-' l) else n1
  if jsValidDate n2 then String.mk n2 else s

/-- Embedding of `normalizeDate`: a falsy (empty) input returns `null`. -/
def normalizeDate (s : String) : Option String :=
  if s = "" then none else some (normalizeDateRun s)

/-- A location extracted by the winning location pattern of
`extractItineraryDataEnhanced` (captures already trimmed). -/
structure Location where
  city : String
  state : String
deriving DecidableEq, Repr

/-- An itinerary stop as pushed by the combination loop of
`extractItineraryDataEnhanced`: each field may be absent. -/
structure Stop where
  date : Option String
  city : Option String
  state : Option String
deriving DecidableEq, Repr

/-- Truthiness of an optional string property (`item.city || item.date`):
absent or empty is falsy. -/
def truthyOpt : Option String → Bool
  | none => false
  | some s => s ≠ ""

/-- The item built at index `i` of the combination loop of
`extractItineraryDataEnhanced` (`updated/document_processor.js`
lines 470-484): the `i`-th date (normalized) when there is one, and the
`i`-th location, reusing the last known location when the dates outnumber
the locations. -/
def mkStop (dates : List String) (locations : List Location) (i : ℕ) : Stop :=
  { date := if i < dates.length then normalizeDate (dates.getD i "") else none
    city :=
      if i < locations.length then some (locations.getD i ⟨"", ""⟩).city
      else match locations.getLast? with
        | some loc => some loc.city
        | none => none
    state :=
      if i < locations.length then some (locations.getD i ⟨"", ""⟩).state
      else match locations.getLast? with
        | some loc => some loc.state
        | none => none }

/-- Embedding of the date/location combination loop of
`extractItineraryDataEnhanced` (`updated/document_processor.js`
lines 468-489): iterate `i` from `0` to `max(dates.length,
locations.length) - 1` and emit the item when it has a (truthy) city or
date. -/
def combineStops (dates : List String) (locations : List Location) : List Stop :=
  (List.range (max dates.length locations.length)).filterMap fun i =>
    let item := mkStop dates locations i
    if truthyOpt item.city || truthyOpt item.date then some item else none

/-- One step of `text.replace(/\s+/g, " ")`: the flag records whether we
are inside a whitespace run that has already emitted its single space. -/
def collapseWsAux : Bool → List Char → List Char
  | _, [] => []
  | inRun, c :: rest =>
    if isWS c then
      if inRun then collapseWsAux true rest else ' ' :: collapseWsAux true rest
    else c :: collapseWsAux false rest

/-- `text.replace(/\s+/g, " ")` — the first step of `cleanExtractedText`
(`updated/document_processor.js` line 230). -/
def collapseWs (l : List Char) : List Char :=
  collapseWsAux false l

/-- Index of the last `'\n'` in a character list, if any. -/
def lastNlIdx : List Char → Option ℕ
  | [] => none
  | c :: r =>
    match lastNlIdx r with
    | some k => some (k + 1)
    | none => if c = '\n' then some 0 else none

/-- `text.replace(/\n\s*\n/g, "\n")` — the second step of
`cleanExtractedText` (line 232).  On a `'\n'` the greedy `\s*` consumes
the whitespace run and backtracks to the last `'\n'` inside it; the whole
match is replaced by a single `'\n'`. -/
def replBlank : List Char → List Char
  | [] => []
  | c :: rest =>
    if c = '\n' then
      match lastNlIdx (rest.takeWhile isWS) with
      | some k => '\n' :: replBlank (rest.drop (k + 1))
      | none => '\n' :: replBlank rest
    else c :: replBlank rest
termination_by l => l.length
decreasing_by
  · simp [List.length_drop]; omega
  · simp
  · simp

/-- The allow-list of `text.replace(/[^\w\s\$\.\,\(\)\-\:\/\&\#]/g, "")`
(line 234): word characters, whitespace, and the listed punctuation. -/
def isAllowedChar (c : Char) : Bool :=
  c.isAlphanum || c = '_' || isWS c || c = '$' || c = '.' || c = ',' || c = '(' ||
    c = ')' || c = '-' || c = ':' || c = '/' || c = '&' || c = '#'

/-- `text.replace(/\$\s+/g, "$")` (line 236): after a `'$'`, drop the
following whitespace run (a no-op when none follows). -/
def dollarFix : List Char → List Char
  | [] => []
  | c :: rest =>
    if c = '$' then '$' :: dollarFix (rest.dropWhile isWS)
    else c :: dollarFix rest
termination_by l => l.length
decreasing_by
  · have h := List.Sublist.length_le (List.dropWhile_sublist (l := rest) isWS)
    simp; omega
  · simp

/-- One of the OCR fixes `replace(/[Xy](?=\d)/g, r)` (lines 238-240):
replace a target character by `r` when the next character is a digit (the
look-ahead is not consumed). -/
def fixBefore (isTarget : Char → Bool) (rep : Char) : List Char → List Char
  | [] => []
  | c :: rest =>
    (if isTarget c &&
        (match rest.head? with
         | some d => d.isDigit
         | none => false) then rep else c) :: fixBefore isTarget rep rest

/-- Embedding of `cleanExtractedText` (`updated/document_processor.js`
lines 224-243): whitespace collapse, blank-line collapse, allow-list
filter, `$`-spacing fix, the three digit-adjacent OCR fixes, and a final
trim; a falsy input yields the empty string. -/
def cleanExtractedText (s : String) : String :=
  if s = "" then ""
  else
    String.mk (trimChars
      (fixBefore (fun c => c = 'S' || c = 's') '5'
        (fixBefore (fun c => c = 'I' || c = 'l') '1'
          (fixBefore (fun c => c = 'O' || c = 'o') '0'
            (dollarFix
              ((replBlank (collapseWs s.toList)).filter isAllowedChar))))))

end DocProcessor

namespace GasMain

/-- The columns of one bulk-CSV cost-line row that take part in the
aggregation of `aggregateByTarId` (`GAS/main.gs` lines 429-486; the same
logic appears in `processBulkRecords` of `tar_build/client.js`).  Field
names follow the CSV headers. -/
structure CsvRow where
  departureDate : String
  dateSubmitted : String
  returnDate : String
  destination : String
  travelPurpose : String
  comments : String
  totalActualCost : String
  costTypeValue : String
  totalTravelEstimate : String
deriving DecidableEq, Repr

/-- A calendar date as parsed from a CSV date value. -/
structure Ymd where
  y : ℕ
  m : ℕ
  d : ℕ
deriving DecidableEq, Repr

/-- An injective monotone key for comparing dates (month < 16,
day < 32 for every valid date). -/
def Ymd.key (x : Ymd) : ℕ :=
  (x.y * 16 + x.m) * 32 + x.d

/-- Decimal digit characters of a natural number (own implementation to
keep kernel reduction simple). -/
def natDigitsAux : ℕ → ℕ → List Char
  | 0, _ => []
  | fuel + 1, n =>
    if n < 10 then [Char.ofNat (48 + n)]
    else natDigitsAux fuel (n / 10) ++ [Char.ofNat (48 + n % 10)]

/-- Decimal digit characters of a natural number. -/
def natDigits (n : ℕ) : List Char :=
  natDigitsAux (n + 1) n

/-- Digits of `n`, left-padded with `'0'` to the given width. -/
def padNat (width n : ℕ) : List Char :=
  List.replicate (width - (natDigits n).length) '0' ++ natDigits n

/-- `date.toISOString().split('T')[0]` for a parsed date. -/
def Ymd.iso (x : Ymd) : String :=
  String.mk (padNat 4 x.y ++ '-' :: (padNat 2 x.m ++ '-' :: padNat 2 x.d))

/-- Model of `new Date(s)` on the ISO `YYYY-MM-DD` date strings used by
the bulk CSVs; `none` models an invalid date. -/
def parseIsoDate (s : String) : Option Ymd :=
  match s.toList with
  | [y1, y2, y3, y4, h1, m1, m2, h2, d1, d2] =>
    if h1 = '-' && h2 = '-' && [y1, y2, y3, y4, m1, m2, d1, d2].all Char.isDigit &&
        DocProcessor.dateOk (natOfDigits [y1, y2, y3, y4]) (natOfDigits [m1, m2])
          (natOfDigits [d1, d2]) then
      some ⟨natOfDigits [y1, y2, y3, y4], natOfDigits [m1, m2], natOfDigits [d1, d2]⟩
    else none
  | _ => none

/-- The per-row trip-start value `r['Departure Date'] || r['Date
Submitted']`, parsed; an empty raw value or a failed parse contributes
nothing. -/
def startCandidate (r : CsvRow) : Option Ymd :=
  let sRaw := if r.departureDate ≠ "" then r.departureDate else r.dateSubmitted
  if sRaw = "" then none else parseIsoDate sRaw

/-- The per-row trip-end value `r['Return Date']`, parsed. -/
def endCandidate (r : CsvRow) : Option Ymd :=
  if r.returnDate = "" then none else parseIsoDate r.returnDate

/-- The accumulation loop of `aggregateByTarId` over the rows of one
group: keep the candidate whose (signed) key is strictly smaller than the
current best.  `κ = key` gives the earliest date (`sd < startDate`),
`κ = -key` the latest (`ed > endDate`). -/
def selBy (κ : Ymd → ℤ) (f : CsvRow → Option Ymd) (recs : List CsvRow) : Option Ymd :=
  recs.foldl
    (fun a r =>
      match f r with
      | none => a
      | some d =>
        match a with
        | none => some d
        | some cur => if κ d < κ cur then some d else a)
    none

/-- `parseFloat(x) || 0`. -/
def parseFloatOr0 (s : String) : ℚ :=
  (jsParseFloat s).getD 0

/-- The aggregated record fields produced for one TAR-ID group.  The
source stores `totalActualCost` as the decimal string
`totalActual ? totalActual.toString() : '0'`; the model keeps the numeric
value itself. -/
structure AggRecord where
  departureDate : String
  returnDate : String
  destination : String
  travelPurpose : String
  totalActualCost : ℚ
  totalTravelEstimate : String
deriving DecidableEq, Repr

/-- Embedding of the body of the per-group loop of `aggregateByTarId`
(`GAS/main.gs` lines 438-483; identical logic in `processBulkRecords` of
`tar_build/client.js` lines 316-359).  `base` is `recs[0]`, whose fields
the aggregate starts from (`Object.assign({}, base)`). -/
def aggregateGroup (base : CsvRow) (rest : List CsvRow) : AggRecord :=
  let recs := base :: rest
  let startDate := selBy (fun d => (d.key : ℤ)) startCandidate recs
  let endDate := selBy (fun d => -(d.key : ℤ)) endCandidate recs
  let destRec := recs.find? fun r => strTrim r.destination != ""
  let purposeRec := recs.find? fun r => strTrim r.travelPurpose != ""
  let commentRec := recs.find? fun r => strTrim r.comments != ""
  let baseActual := parseFloatOr0 base.totalActualCost
  let sumCost := recs.foldl (fun sum r => sum + parseFloatOr0 r.costTypeValue) 0
  let totalActual := if baseActual ≠ 0 then baseActual else sumCost
  let estRec := recs.find? fun r =>
    match jsParseFloat r.totalTravelEstimate with
    | some q => decide (0 < q)
    | none => false
  { departureDate :=
      match startDate with
      | some d => d.iso
      | none => base.departureDate
    returnDate :=
      match endDate with
      | some d => d.iso
      | none => base.returnDate
    destination :=
      match destRec with
      | some r => r.destination
      | none => base.destination
    travelPurpose :=
      match purposeRec with
      | some r => r.travelPurpose
      | none =>
        match commentRec with
        | some r => r.comments
        | none => ""
    totalActualCost := totalActual
    totalTravelEstimate :=
      match estRec with
      | some r => r.totalTravelEstimate
      | none => if base.totalTravelEstimate ≠ "" then base.totalTravelEstimate else "" }

/-- The parseable trip-start values of a group, in row order (what the
claim calls the "parseable departure/date-submitted values"). -/
def startValues (recs : List CsvRow) : List Ymd :=
  recs.filterMap startCandidate

/-- The parseable trip-end values of a group, in row order. -/
def returnValues (recs : List CsvRow) : List Ymd :=
  recs.filterMap endCandidate

/-- The first non-zero explicit `Total Actual Cost` found anywhere in the
group — the quantity the claim asserts the aggregation uses. -/
def firstNonzeroTotalSpec (recs : List CsvRow) : Option ℚ :=
  (recs.filterMap fun r =>
    match jsParseFloat r.totalActualCost with
    | some q => if q ≠ 0 then some q else none
    | none => none).head?

/-- The sum of the group's `Cost Type Value` entries (unparseable entries
contribute `0`, as in the source's `parseFloat(...) || 0`). -/
def sumCostTypeValues (recs : List CsvRow) : ℚ :=
  (recs.map fun r => parseFloatOr0 r.costTypeValue).sum

end GasMain

namespace GasPort

/-- Claim-side condition: a required field is present (not
`undefined`/`null`) and, if a string, non-blank after trimming. -/
def presentNonBlank (v : JSVal) : Prop :=
  v ≠ JSVal.undef ∧ v ≠ JSVal.null ∧ ∀ s, v = JSVal.str s → strTrim s ≠ ""

/-- Claim-side condition: every required field passes `presentNonBlank`. -/
def RequiredOk (d : FormData) : Prop :=
  ∀ p ∈ requiredPairs d, presentNonBlank p.2

/-- Claim-side condition: every present (truthy) vendor code matches
`^E\d{8,9}$` after trimming. -/
def VendorOk (d : FormData) : Prop :=
  ∀ s, d.vendorCode = JSVal.str s → s ≠ "" → vendorCodeFormat (strTrim s) = true

/-- Claim-side condition: every present (truthy) contact number, after
stripping spaces, dashes and parentheses, matches `^[+]?\d{7,15}$`. -/
def PhoneOk (d : FormData) : Prop :=
  ∀ s, d.contactNumber = JSVal.str s → s ≠ "" → phoneFormat (stripPhoneChars s.toList) = true

/-- Claim-side condition: every present (truthy, i.e. non-zero)
estimated cost is a positive number. -/
def CostOk (d : FormData) : Prop :=
  ∀ q, d.estimatedCost = JSVal.num q → q ≠ 0 → 0 < q

end GasPort

/-! ## Claim C1 -/

/-- C1: the claim asserts that `generateValidationReport` always yields
`variancePercent = 0` when `expectedCosts.totalExpected = 0`, never `NaN`
or `Infinity`.  This holds for the Apps-Script implementation (`utils.gs`),
which guards the division; but the `updated/tar_build/utils.js`
implementation divides unguarded, so at `totalExpected = 0` its
`variancePercent` is `Infinity` (claimed cost `100`), `NaN` (claimed cost
`0`), or `-Infinity` (claimed cost `-5`). -/
theorem c1_variance_percent_zero_guard :
    (∀ claimedCost : ℚ,
      (GasPort.generateValidationReport ⟨0, []⟩ claimedCost).variancePercent = 0) ∧
    (TarBuild.generateValidationReport ⟨0, []⟩ 100).variancePercent = JNum.posInf ∧
    (TarBuild.generateValidationReport ⟨0, []⟩ 0).variancePercent = JNum.nan ∧
    (TarBuild.generateValidationReport ⟨0, []⟩ (-5)).variancePercent = JNum.negInf := by
  refine ⟨fun claimedCost => ?_, ?_, ?_, ?_⟩
  · simp [GasPort.generateValidationReport, GasPort.variancePercent,
      GasPort.variancePercentRaw, round2]
  · norm_num [TarBuild.generateValidationReport, TarBuild.variancePercent,
      JNum.div, JNum.mulPos, jToFixed2]
  · norm_num [TarBuild.generateValidationReport, TarBuild.variancePercent,
      JNum.div, JNum.mulPos, jToFixed2]
  · norm_num [TarBuild.generateValidationReport, TarBuild.variancePercent,
      JNum.div, JNum.mulPos, jToFixed2]

/-! ## Claim C2 -/

/-- C2: for a merged record with claimed cost `c` and expected total
`e > 0`, the report sets `isWithinBuffer` to `|c - e| ≤ COST_BUFFER = 10`
and `isWithinDeviation` to `|100·(c - e)/e| ≤ MAX_DEVIATION_PERCENT = 15`,
and `validateTarWithPerDiem` reports `isValid` exactly when both hold; in
particular `e = 1000, c = 1015` is invalid (fails the buffer, passes the
deviation check) and `c = 1200` fails both sub-checks. -/
theorem c2_buffer_deviation_validity :
    (∀ (c e : ℚ) (bd : List BreakdownItem), 0 < e →
      (TarBuild.isWithinBuffer c e = true ↔ |c - e| ≤ COST_BUFFER) ∧
      (TarBuild.isWithinDeviation c e = true ↔ |100 * (c - e) / e| ≤ MAX_DEVIATION_PERCENT) ∧
      (TarBuild.tarIsValid (TarBuild.generateValidationReport ⟨e, bd⟩ c) = true ↔
        (|c - e| ≤ COST_BUFFER ∧ |100 * (c - e) / e| ≤ MAX_DEVIATION_PERCENT))) ∧
    (TarBuild.tarIsValid (TarBuild.generateValidationReport ⟨1000, []⟩ 1015) = false ∧
      TarBuild.isWithinBuffer 1015 1000 = false ∧
      TarBuild.isWithinDeviation 1015 1000 = true) ∧
    (TarBuild.isWithinBuffer 1200 1000 = false ∧
      TarBuild.isWithinDeviation 1200 1000 = false) := by
  have habs : ∀ (c e : ℚ), 0 < e →
      (|c - e| / e * 100 ≤ 15 ↔ |100 * (c - e) / e| ≤ 15) := by
    intro c e he
    rw [abs_div, abs_of_pos he, abs_mul]
    rw [abs_of_nonneg (by norm_num : (0:ℚ) ≤ 100)]
    constructor
    · intro h
      calc 100 * |c - e| / e = |c - e| / e * 100 := by ring
        _ ≤ 15 := h
    · intro h
      calc |c - e| / e * 100 = 100 * |c - e| / e := by ring
        _ ≤ 15 := h
  refine ⟨fun c e bd he => ⟨?_, ?_, ?_⟩, ⟨?_, ?_, ?_⟩, ?_, ?_⟩
  · simp [TarBuild.isWithinBuffer, COST_BUFFER]
  · have hne : e ≠ 0 := ne_of_gt he
    simp only [TarBuild.isWithinDeviation, JNum.div, JNum.mulPos, JNum.leQ, hne, if_false,
      MAX_DEVIATION_PERCENT, decide_eq_true_eq]
    exact habs c e he
  · have hne : e ≠ 0 := ne_of_gt he
    simp only [TarBuild.tarIsValid, TarBuild.generateValidationReport,
      TarBuild.isWithinBuffer, TarBuild.isWithinDeviation, JNum.div, JNum.mulPos, JNum.leQ,
      hne, if_false, COST_BUFFER, MAX_DEVIATION_PERCENT, Bool.and_eq_true, decide_eq_true_eq]
    rw [habs c e he]
  · norm_num [TarBuild.tarIsValid, TarBuild.generateValidationReport,
      TarBuild.isWithinBuffer, COST_BUFFER]
  · norm_num [TarBuild.isWithinBuffer, COST_BUFFER]
  · norm_num [TarBuild.isWithinDeviation, JNum.div, JNum.mulPos, JNum.leQ,
      MAX_DEVIATION_PERCENT]
  · norm_num [TarBuild.isWithinBuffer, COST_BUFFER]
  · norm_num [TarBuild.isWithinDeviation, JNum.div, JNum.mulPos, JNum.leQ,
      MAX_DEVIATION_PERCENT]

/-- Witness for C2: the general part applied at `c = 1015`, `e = 1000`
with an empty breakdown. -/
theorem c2_buffer_deviation_validity_witness :
    (TarBuild.isWithinDeviation 1015 1000 = true ↔
      |100 * ((1015 : ℚ) - 1000) / 1000| ≤ MAX_DEVIATION_PERCENT) :=
  (c2_buffer_deviation_validity.1 1015 1000 [] (by norm_num)).2.1

/-! ## Claim C4 -/

/-- C4 (counterexample): in the `updated/tar_build/utils.js` report with
`totalExpected = 100` and `claimedCost = 0`, `isWithinBuffer` is `false`
(the variance is `-100`), yet the buffer-exceeded message is NOT in the
recommendations — the source pushes it only when the signed variance
exceeds the buffer. -/
theorem c4_counterexample :
    (TarBuild.generateValidationReport
      ⟨100, [⟨"Washington, DC", "2025-01-01", 79, 150, 229⟩]⟩ 0).isWithinBuffer = false ∧
    Recommendation.bufferExceeded ∉
      (TarBuild.generateValidationReport
        ⟨100, [⟨"Washington, DC", "2025-01-01", 79, 150, 229⟩]⟩ 0).recommendations := by
  constructor
  · norm_num [TarBuild.generateValidationReport, TarBuild.isWithinBuffer, COST_BUFFER]
  · norm_num [TarBuild.generateValidationReport, TarBuild.recommendations,
      TarBuild.variance, TarBuild.variancePercent, JNum.div, JNum.mulPos, jToFixed2,
      JNum.abs, JNum.gtQ, round2, round_eq, COST_BUFFER, MAX_DEVIATION_PERCENT]
    simp

/-- C4 (amended): in the Apps-Script report (`utils.gs`) the three
recommendation rules fire exactly as the claim states — buffer message iff
`isWithinBuffer` is false, deviation message iff `isWithinDeviation` is
false, manual-review message iff the breakdown is empty, in the listed
order.  In the `updated/tar_build/utils.js` report, the buffer message
instead fires iff the signed variance exceeds `COST_BUFFER` (so never for
negative variances), the deviation message iff the rounded
`|variancePercent|` exceeds `MAX_DEVIATION_PERCENT`, and the manual-review
message iff the breakdown is empty. -/
theorem c4_recommendation_rules :
    (∀ (c e : ℚ) (bd : List BreakdownItem),
      (Recommendation.bufferExceeded ∈
          (GasPort.generateValidationReport ⟨e, bd⟩ c).recommendations ↔
        GasPort.isWithinBuffer c e = false) ∧
      ((∃ p, Recommendation.deviationExceeded p ∈
          (GasPort.generateValidationReport ⟨e, bd⟩ c).recommendations) ↔
        GasPort.isWithinDeviation c e = false) ∧
      (Recommendation.manualReview ∈
          (GasPort.generateValidationReport ⟨e, bd⟩ c).recommendations ↔ bd = [])) ∧
    (∀ (c e : ℚ) (bd : List BreakdownItem),
      (Recommendation.bufferExceeded ∈
          (TarBuild.generateValidationReport ⟨e, bd⟩ c).recommendations ↔
        COST_BUFFER < c - e) ∧
      ((∃ p, Recommendation.deviationExceeded p ∈
          (TarBuild.generateValidationReport ⟨e, bd⟩ c).recommendations) ↔
        (TarBuild.variancePercent c e).abs.gtQ MAX_DEVIATION_PERCENT = true) ∧
      (Recommendation.manualReview ∈
          (TarBuild.generateValidationReport ⟨e, bd⟩ c).recommendations ↔ bd = [])) := by
  constructor
  · intro c e bd
    refine ⟨?_, ?_, ?_⟩
    · simp only [GasPort.generateValidationReport, GasPort.recommendations, List.mem_append]
      split_ifs with h1 h2 h3 <;> simp_all
    · simp only [GasPort.generateValidationReport, GasPort.recommendations, List.mem_append]
      split_ifs with h1 h2 h3 <;> simp_all
    · simp only [GasPort.generateValidationReport, GasPort.recommendations, List.mem_append]
      split_ifs with h1 h2 h3 <;> simp_all [List.isEmpty_iff]
  · intro c e bd
    refine ⟨?_, ?_, ?_⟩
    · simp only [TarBuild.generateValidationReport, TarBuild.recommendations,
        TarBuild.variance, List.mem_append]
      split_ifs with h1 h2 h3 <;> simp_all
    · simp only [TarBuild.generateValidationReport, TarBuild.recommendations,
        TarBuild.variance, List.mem_append]
      split_ifs with h1 h2 h3 <;> simp_all
    · simp only [TarBuild.generateValidationReport, TarBuild.recommendations,
        TarBuild.variance, List.mem_append]
      split_ifs with h1 h2 h3 <;> simp_all [List.isEmpty_iff]

/-! ## Parsing lemmas

Correctness of the `parseFloat` model on decimal literals, used to relate
`parseRate`/`average` to the specification-side entry classification. -/

theorem digit_not_ws {c : Char} (h : c.isDigit = true) : isWS c = false := by
  cases hws : isWS c
  · rfl
  · exfalso
    simp only [isWS, Bool.or_eq_true, decide_eq_true_eq] at hws
    rcases hws with ((((rfl | rfl) | rfl) | rfl) | rfl) | rfl <;> exact absurd h (by decide)

theorem takeWhile_append_of (p : Char → Bool) (xs ys : List Char)
    (hxs : ∀ c ∈ xs, p c = true) (hys : ∀ c, ys.head? = some c → p c = false) :
    (xs ++ ys).takeWhile p = xs ∧ (xs ++ ys).dropWhile p = ys := by
  induction xs with
  | nil =>
    cases ys with
    | nil => simp
    | cons y t =>
      have hy := hys y rfl
      simp [List.takeWhile_cons, List.dropWhile_cons, hy]
  | cons x xs ih =>
    have hx := hxs x (List.mem_cons_self _ _)
    have ih' := ih fun c hc => hxs c (List.mem_cons_of_mem _ hc)
    simp [List.takeWhile_cons, List.dropWhile_cons, hx, ih'.1, ih'.2]

theorem takeWhile_all (p : Char → Bool) (xs : List Char)
    (h : ∀ c ∈ xs, p c = true) : xs.takeWhile p = xs ∧ xs.dropWhile p = [] := by
  have := takeWhile_append_of p xs [] h (by intro c hc; simp at hc)
  simpa using this

theorem parseAfterSign_lit (sign : ℚ) (ip fp : List Char)
    (hip : ∀ c ∈ ip, c.isDigit = true) (hfp : ∀ c ∈ fp, c.isDigit = true)
    (hne : ip ≠ [] ∨ fp ≠ []) :
    parseAfterSign sign (ip ++ (if fp.isEmpty then [] else '.' :: fp)) =
      some (sign * ((natOfDigits ip : ℚ) + (natOfDigits fp : ℚ) / 10 ^ fp.length)) := by
  have hfrac : ∀ c : Char,
      (if fp.isEmpty then ([] : List Char) else '.' :: fp).head? = some c → c.isDigit = false := by
    intro c hc
    cases fp with
    | nil => simp at hc
    | cons f t =>
      simp only [List.isEmpty_cons, Bool.false_eq_true, ite_false, List.head?_cons,
        Option.some.injEq] at hc
      subst hc
      decide
  have hbody := takeWhile_append_of Char.isDigit ip
    (if fp.isEmpty then [] else '.' :: fp) hip hfrac
  simp only [parseAfterSign]
  rw [hbody.1, hbody.2]
  cases fp with
  | nil =>
    have hipne : ip ≠ [] := by
      rcases hne with h | h
      · exact h
      · exact absurd rfl h
    have hipe : ip.isEmpty = false := by
      cases ip with
      | nil => exact absurd rfl hipne
      | cons _ _ => simp
    simp [hipe, natOfDigits]
  | cons f t =>
    have hft := (takeWhile_all Char.isDigit (f :: t) hfp).1
    simp only [List.isEmpty_cons, Bool.false_eq_true, ite_false]
    simp [hft]

theorem parseFloatChars_lit (sgn : Bool) (ip fp : List Char)
    (hip : ∀ c ∈ ip, c.isDigit = true) (hfp : ∀ c ∈ fp, c.isDigit = true)
    (hne : ip ≠ [] ∨ fp ≠ []) :
    parseFloatChars (TarBuild.litChars sgn ip fp) = some (TarBuild.litVal sgn ip fp) := by
  have key := parseAfterSign_lit (if sgn then -1 else 1) ip fp hip hfp hne
  cases sgn with
  | true =>
    simp only [TarBuild.litChars, ite_true, List.singleton_append, List.cons_append]
    simp only [parseFloatChars]
    rw [show List.dropWhile isWS ('-' :: ([] ++ ip ++ if fp.isEmpty then [] else '.' :: fp)) =
        '-' :: ([] ++ ip ++ if fp.isEmpty then [] else '.' :: fp) by
      simp [List.dropWhile_cons, show isWS '-' = false by decide]]
    simpa [TarBuild.litVal] using key
  | false =>
    simp only [TarBuild.litChars, Bool.false_eq_true, ite_false, List.nil_append]
    cases ip with
    | nil =>
      have hfp' : fp ≠ [] := by
        rcases hne with h | h
        · exact absurd rfl h
        · exact h
      cases fp with
      | nil => exact absurd rfl hfp'
      | cons f t =>
        simp only [List.isEmpty_cons, Bool.false_eq_true, ite_false, List.nil_append]
        simp only [parseFloatChars]
        rw [show List.dropWhile isWS ('.' :: f :: t) = '.' :: f :: t by
          simp [List.dropWhile_cons, show isWS '.' = false by decide]]
        simp only [show ('.' = '-') = False by simp, show ('.' = '+') = False by simp,
          ite_false]
        simpa [TarBuild.litVal, List.isEmpty_cons] using key
    | cons d ds =>
      have hd := hip d (List.mem_cons_self _ _)
      have hdm : ¬(d = '-') := by
        intro h; subst h; exact absurd hd (by decide)
      have hdp : ¬(d = '+') := by
        intro h; subst h; exact absurd hd (by decide)
      simp only [parseFloatChars, List.cons_append]
      rw [show List.dropWhile isWS (d :: (ds ++ if fp.isEmpty then [] else '.' :: fp)) =
          d :: (ds ++ if fp.isEmpty then [] else '.' :: fp) by
        simp [List.dropWhile_cons, digit_not_ws hd]]
      simp only [hdm, ite_false, hdp]
      simpa [TarBuild.litVal, List.cons_append] using key

theorem parseFloatChars_nil : parseFloatChars [] = none := rfl

theorem dropWhile_of_head_false (p : Char → Bool) (l : List Char)
    (h : ∀ c, l.head? = some c → p c = false) : l.dropWhile p = l := by
  cases l with
  | nil => rfl
  | cons c t => simp [List.dropWhile_cons, h c rfl]

theorem trimChars_eq_self (l : List Char) (h : ∀ c ∈ l, isWS c = false) :
    trimChars l = l := by
  unfold trimChars
  have h1 : l.dropWhile isWS = l :=
    dropWhile_of_head_false isWS l fun c hc => h c (List.mem_of_mem_head? hc)
  rw [h1]
  have h2 : l.reverse.dropWhile isWS = l.reverse :=
    dropWhile_of_head_false isWS l.reverse fun c hc =>
      h c (List.mem_reverse.mp (List.mem_of_mem_head? hc))
  rw [h2, List.reverse_reverse]

theorem splitOnChar_of_not_mem (sep : Char) (l : List Char) (h : sep ∉ l) :
    splitOnChar sep l = [l] := by
  induction l with
  | nil => rfl
  | cons c t ih =>
    have hc : ¬(c = sep) := fun e => h (e ▸ List.mem_cons_self _ _)
    have ht := ih fun m => h (List.mem_cons_of_mem _ m)
    simp [splitOnChar, hc, ht]

theorem splitOnChar_append_sep (sep : Char) (a b : List Char) (ha : sep ∉ a) :
    splitOnChar sep (a ++ sep :: b) = a :: splitOnChar sep b := by
  induction a with
  | nil => simp [splitOnChar]
  | cons c t ih =>
    have hc : ¬(c = sep) := fun e => ha (e ▸ List.mem_cons_self _ _)
    have ht := ih fun m => ha (List.mem_cons_of_mem _ m)
    simp [splitOnChar, hc, ht]

theorem mem_litChars_false {c : Char} (ip fp : List Char)
    (hip : ∀ x ∈ ip, x.isDigit = true) (hfp : ∀ x ∈ fp, x.isDigit = true)
    (h : c ∈ TarBuild.litChars false ip fp) : c.isDigit = true ∨ c = '.' := by
  simp only [TarBuild.litChars, Bool.false_eq_true, ite_false, List.nil_append,
    List.mem_append] at h
  rcases h with h | h
  · exact Or.inl (hip c h)
  · cases fp with
    | nil => simp at h
    | cons f t =>
      simp only [List.isEmpty_cons, Bool.false_eq_true, ite_false, List.mem_cons] at h
      rcases h with rfl | rfl | h
      · exact Or.inr rfl
      · exact Or.inl (hfp c (by simp))
      · exact Or.inl (hfp c (by simp [h]))

theorem dash_not_mem_litChars_false (ip fp : List Char)
    (hip : ∀ x ∈ ip, x.isDigit = true) (hfp : ∀ x ∈ fp, x.isDigit = true) :
    '-' ∉ TarBuild.litChars false ip fp := by
  intro h
  rcases mem_litChars_false ip fp hip hfp h with h | h
  · exact absurd h (by decide)
  · exact absurd h (by decide)

theorem ws_not_mem_litChars_false (ip fp : List Char)
    (hip : ∀ x ∈ ip, x.isDigit = true) (hfp : ∀ x ∈ fp, x.isDigit = true) :
    ∀ c ∈ TarBuild.litChars false ip fp, isWS c = false := by
  intro c hc
  rcases mem_litChars_false ip fp hip hfp hc with h | h
  · exact digit_not_ws h
  · subst h; decide

theorem parseRate_represents {v : TarBuild.RVal} {o : Option ℚ}
    (h : TarBuild.Represents v o) : TarBuild.parseRate v = o := by
  cases h with
  | absent => rfl
  | number q => rfl
  | unparseable s hu => exact hu
  | numericStr s sgn ip fp hs hip hfp hne =>
    cases sgn with
    | false =>
      have hnm : ¬(s.toList.contains '-' = true) := by
        rw [hs]
        simp only [List.contains, List.elem_iff]
        exact dash_not_mem_litChars_false ip fp hip hfp
      simp only [TarBuild.parseRate, hnm, ite_false]
      rw [hs]
      exact parseFloatChars_lit false ip fp hip hfp hne
    | true =>
      have hbody : s.toList = '-' :: TarBuild.litChars false ip fp := by
        rw [hs]
        simp [TarBuild.litChars]
      have hmem : s.toList.contains '-' = true := by
        rw [hbody]
        simp [List.contains, List.elem_iff]
      simp only [TarBuild.parseRate, hmem, ite_true]
      rw [hbody]
      rw [show splitOnChar '-' ('-' :: TarBuild.litChars false ip fp) =
          [] :: splitOnChar '-' (TarBuild.litChars false ip fp) from by simp [splitOnChar]]
      rw [splitOnChar_of_not_mem '-' _ (dash_not_mem_litChars_false ip fp hip hfp)]
      simp only [List.getD_cons_zero, List.getD_cons_succ]
      rw [show trimChars [] = [] from rfl, parseFloatChars_nil]
      have hlit := parseFloatChars_lit true ip fp hip hfp hne
      rw [show TarBuild.litChars true ip fp = '-' :: TarBuild.litChars false ip fp from by
        simp [TarBuild.litChars]] at hlit
      simp [hlit]
  | rangeStr s ip1 fp1 ip2 fp2 hs h1 h2 h3 h4 hne1 hne2 =>
    have hd1 := dash_not_mem_litChars_false ip1 fp1 h1 h2
    have hd2 := dash_not_mem_litChars_false ip2 fp2 h3 h4
    have hmem : s.toList.contains '-' = true := by
      rw [hs]
      simp [List.contains, List.elem_iff]
    simp only [TarBuild.parseRate, hmem, ite_true]
    rw [hs]
    rw [splitOnChar_append_sep '-' _ _ hd1]
    rw [splitOnChar_of_not_mem '-' _ hd2]
    simp only [List.getD_cons_zero, List.getD_cons_succ]
    rw [trimChars_eq_self _ (ws_not_mem_litChars_false ip1 fp1 h1 h2)]
    rw [trimChars_eq_self _ (ws_not_mem_litChars_false ip2 fp2 h3 h4)]
    rw [parseFloatChars_lit false ip1 fp1 h1 h2 hne1]
    rw [parseFloatChars_lit false ip2 fp2 h3 h4 hne2]

/-! ## Claim C5 -/

/-- C5: for every rate array whose entries are classified by the
specification (numbers, numeric strings, `low-high` range strings with
midpoint contribution, unparseable/absent entries contributing nothing),
`average` returns the arithmetic mean of the contributed values, and `0`
with no error when nothing contributes. -/
theorem c5_average_meets_spec :
    ∀ (values : List TarBuild.RVal) (sems : List (Option ℚ)),
      List.Forall₂ TarBuild.Represents values sems →
      TarBuild.average values = TarBuild.optMean sems := by
  intro values sems h
  have key : values.filterMap TarBuild.parseRate = sems.reduceOption := by
    induction h with
    | nil => rfl
    | @cons v o vs os hrep _ ih =>
      rw [List.filterMap_cons, parseRate_represents hrep]
      cases o with
      | none => simpa [List.reduceOption_cons_of_none] using ih
      | some q => simp [List.reduceOption_cons_of_some, ih]
  simp only [TarBuild.average, TarBuild.optMean, key]

/-- Witness for C5: a concrete five-entry rate array (a numeric string, a
number, a range string, an absent entry, an unparseable string), with the
mean evaluated. -/
theorem c5_average_meets_spec_witness :
    TarBuild.average [TarBuild.RVal.str "250", TarBuild.RVal.num 100,
        TarBuild.RVal.str "130-150", TarBuild.RVal.missing, TarBuild.RVal.str "abc"] =
      TarBuild.optMean [some 250, some 100, some 140, none, none] ∧
    TarBuild.optMean [some 250, some 100, some 140, none, none] = 490 / 3 := by
  constructor
  · refine c5_average_meets_spec _ _ ?_
    refine List.Forall₂.cons ?_ (List.Forall₂.cons ?_ (List.Forall₂.cons ?_
      (List.Forall₂.cons ?_ (List.Forall₂.cons ?_ List.Forall₂.nil))))
    · have h := TarBuild.Represents.numericStr "250" false ['2', '5', '0'] []
        (by decide) (by decide) (by decide) (Or.inl (by decide))
      have hv : TarBuild.litVal false ['2', '5', '0'] [] = 250 := by
        simp only [TarBuild.litVal, show natOfDigits ['2', '5', '0'] = 250 from by decide,
          show natOfDigits ([] : List Char) = 0 from by decide]
        norm_num
      rw [hv] at h
      exact h
    · exact TarBuild.Represents.number 100
    · have h := TarBuild.Represents.rangeStr "130-150" ['1', '3', '0'] [] ['1', '5', '0'] []
        (by decide) (by decide) (by decide) (by decide) (by decide)
        (Or.inl (by decide)) (Or.inl (by decide))
      have hv : (TarBuild.litVal false ['1', '3', '0'] [] +
          TarBuild.litVal false ['1', '5', '0'] []) / 2 = 140 := by
        simp only [TarBuild.litVal, show natOfDigits ['1', '3', '0'] = 130 from by decide,
          show natOfDigits ['1', '5', '0'] = 150 from by decide,
          show natOfDigits ([] : List Char) = 0 from by decide]
        norm_num
      rw [hv] at h
      exact h
    · exact TarBuild.Represents.absent
    · exact TarBuild.Represents.unparseable "abc" (by decide)
  · norm_num [TarBuild.optMean, List.reduceOption_cons_of_some,
      List.reduceOption_cons_of_none, List.reduceOption_nil]

/-! ## Claim C3 -/

theorem parseRate_str_250 : TarBuild.parseRate (TarBuild.RVal.str "250") = some 250 := by
  have h := TarBuild.Represents.numericStr "250" false ['2', '5', '0'] []
    (by decide) (by decide) (by decide) (Or.inl (by decide))
  have hv : TarBuild.litVal false ['2', '5', '0'] [] = 250 := by
    simp only [TarBuild.litVal, show natOfDigits ['2', '5', '0'] = 250 from by decide,
      show natOfDigits ([] : List Char) = 0 from by decide]
    norm_num
  rw [hv] at h
  exact parseRate_represents h

theorem jsParseFloat_79 : jsParseFloat "79" = some 79 := by
  have h := parseFloatChars_lit false ['7', '9'] [] (by decide) (by decide) (Or.inl (by decide))
  rw [show TarBuild.litChars false ['7', '9'] [] = "79".toList from by decide] at h
  have hv : TarBuild.litVal false ['7', '9'] [] = 79 := by
    simp only [TarBuild.litVal, show natOfDigits ['7', '9'] = 79 from by decide,
      show natOfDigits ([] : List Char) = 0 from by decide]
    norm_num
  rw [hv] at h
  exact h

/-- C3: in duration mode (no itinerary), `validateTarWithPerDiem` computes
`totalExpected = (mie + averaged lodging) × duration` with one breakdown
item located at `"<city>, <state>"`, using `DEFAULT_MIE` and
`DEFAULT_LODGING` when the rate lookup returns no data; with the rate
`{Meals:"79", Jan..Dec: all "250"}` for Washington, DC and duration `3`,
`totalExpected = 987`, so a claimed cost of `1000` gives variance `13`,
the buffer recommendation fires and the deviation recommendation does
not. -/
theorem c3_duration_mode :
    (∀ (rateData : Option TarBuild.GsaRate) (city state tripDate todayStr : String)
        (duration : ℕ),
      (TarBuild.durationExpectedCosts rateData city state duration tripDate
          todayStr).totalExpected =
        (TarBuild.mieOf rateData + TarBuild.lodgingOf rateData) * duration ∧
      (TarBuild.durationExpectedCosts rateData city state duration tripDate
          todayStr).breakdown.map (fun b => b.location) = [city ++ ", " ++ state] ∧
      (TarBuild.durationExpectedCosts none city state duration tripDate
          todayStr).totalExpected = (DEFAULT_MIE + DEFAULT_LODGING) * duration) ∧
    (∀ p : JNum,
      (TarBuild.durationExpectedCosts
          (some ⟨"79", List.replicate 12 (TarBuild.RVal.str "250")⟩)
          "Washington" "DC" 3 "" "2025-06-01").totalExpected = 987 ∧
      (TarBuild.generateValidationReport
          (TarBuild.durationExpectedCosts
            (some ⟨"79", List.replicate 12 (TarBuild.RVal.str "250")⟩)
            "Washington" "DC" 3 "" "2025-06-01") 1000).variance = 13 ∧
      Recommendation.bufferExceeded ∈
        (TarBuild.generateValidationReport
          (TarBuild.durationExpectedCosts
            (some ⟨"79", List.replicate 12 (TarBuild.RVal.str "250")⟩)
            "Washington" "DC" 3 "" "2025-06-01") 1000).recommendations ∧
      Recommendation.deviationExceeded p ∉
        (TarBuild.generateValidationReport
          (TarBuild.durationExpectedCosts
            (some ⟨"79", List.replicate 12 (TarBuild.RVal.str "250")⟩)
            "Washington" "DC" 3 "" "2025-06-01") 1000).recommendations) := by
  constructor
  · intro rateData city state tripDate todayStr duration
    refine ⟨rfl, rfl, ?_⟩
    simp [TarBuild.durationExpectedCosts, TarBuild.mieOf, TarBuild.lodgingOf]
  · intro p
    have hfm : ∀ n : ℕ, List.filterMap TarBuild.parseRate
        (List.replicate n (TarBuild.RVal.str "250")) = List.replicate n (250 : ℚ) := by
      intro n
      induction n with
      | zero => rfl
      | succ k ih => simp [List.replicate_succ, List.filterMap_cons, parseRate_str_250, ih]
    have havg : TarBuild.average (List.replicate 12 (TarBuild.RVal.str "250")) = 250 := by
      simp only [TarBuild.average, hfm 12, List.sum_replicate, List.length_replicate]
      norm_num
    have hmie : TarBuild.mieOf
        (some ⟨"79", List.replicate 12 (TarBuild.RVal.str "250")⟩) = 79 := by
      simp [TarBuild.mieOf, TarBuild.parseFloatOr, jsParseFloat_79]
    have hlod : TarBuild.lodgingOf
        (some ⟨"79", List.replicate 12 (TarBuild.RVal.str "250")⟩) = 250 := by
      simp only [TarBuild.lodgingOf]
      exact havg
    have htot : (TarBuild.durationExpectedCosts
        (some ⟨"79", List.replicate 12 (TarBuild.RVal.str "250")⟩)
        "Washington" "DC" 3 "" "2025-06-01").totalExpected = 987 := by
      simp only [TarBuild.durationExpectedCosts, hmie, hlod]
      norm_num
    have hbd : (TarBuild.durationExpectedCosts
        (some ⟨"79", List.replicate 12 (TarBuild.RVal.str "250")⟩)
        "Washington" "DC" 3 "" "2025-06-01").breakdown.isEmpty = false := by
      simp [TarBuild.durationExpectedCosts]
    have hrecs : (TarBuild.generateValidationReport
        (TarBuild.durationExpectedCosts
          (some ⟨"79", List.replicate 12 (TarBuild.RVal.str "250")⟩)
          "Washington" "DC" 3 "" "2025-06-01") 1000).recommendations =
        [Recommendation.bufferExceeded] := by
      simp only [TarBuild.generateValidationReport, TarBuild.recommendations, htot, hbd,
        TarBuild.variance, TarBuild.variancePercent, JNum.div, JNum.mulPos, jToFixed2,
        JNum.abs, JNum.gtQ, round2, COST_BUFFER, MAX_DEVIATION_PERCENT]
      norm_num [round_eq]
      exact abs_le.mpr (by constructor <;> norm_num)
    refine ⟨htot, ?_, ?_, ?_⟩
    · simp only [TarBuild.generateValidationReport, TarBuild.variance, htot]
      norm_num
    · rw [hrecs]
      exact List.mem_singleton_self _
    · rw [hrecs]
      simp

/-! ## Claim C6 -/

theorem presentNonBlank_iff (v : JSVal) :
    GasPort.presentNonBlank v ↔ GasPort.missingRequired v = false := by
  cases v <;> simp [GasPort.presentNonBlank, GasPort.missingRequired]

theorem requiredErrors_nil_iff (d : GasPort.FormData) :
    GasPort.requiredErrors d = [] ↔ GasPort.RequiredOk d := by
  rw [GasPort.requiredErrors, List.filterMap_eq_nil_iff]
  unfold GasPort.RequiredOk
  constructor
  · intro h p hp
    have hx := h p hp
    rw [presentNonBlank_iff]
    cases hm : GasPort.missingRequired p.2 with
    | false => rfl
    | true => simp [hm] at hx
  · intro h p hp
    have := (presentNonBlank_iff p.2).mp (h p hp)
    simp [this]

theorem vendorErrors_nil_iff (d : GasPort.FormData)
    (hV : ∀ q, d.vendorCode ≠ JSVal.num q) :
    GasPort.vendorErrors d = [] ↔ GasPort.VendorOk d := by
  unfold GasPort.vendorErrors GasPort.VendorOk
  cases hv : d.vendorCode with
  | undef => simp [truthy]
  | null => simp [truthy]
  | num q => exact absurd hv (hV q)
  | str s =>
    by_cases hs : s = ""
    · subst hs
      simp [truthy]
    · cases hf : GasPort.vendorCodeFormat (strTrim s) <;> simp [truthy, hs, hf]

theorem phoneErrors_nil_iff (d : GasPort.FormData)
    (hC : ∀ q, d.contactNumber ≠ JSVal.num q) :
    GasPort.phoneErrors d = [] ↔ GasPort.PhoneOk d := by
  unfold GasPort.phoneErrors GasPort.PhoneOk
  cases hv : d.contactNumber with
  | undef => simp [truthy]
  | null => simp [truthy]
  | num q => exact absurd hv (hC q)
  | str s =>
    by_cases hs : s = ""
    · subst hs
      simp [truthy]
    · cases hf : GasPort.phoneFormat (GasPort.stripPhoneChars s.toList) <;>
        simp [truthy, hs, hf]

theorem costErrors_nil_iff (d : GasPort.FormData)
    (hE : ∀ s, d.estimatedCost ≠ JSVal.str s) :
    GasPort.costErrors d = [] ↔ GasPort.CostOk d := by
  cases hv : d.estimatedCost with
  | undef => simp [GasPort.costErrors, GasPort.CostOk, hv, truthy]
  | null => simp [GasPort.costErrors, GasPort.CostOk, hv, truthy]
  | str s => exact absurd hv (hE s)
  | num q =>
    by_cases hq : q = 0
    · subst hq
      simp [GasPort.costErrors, GasPort.CostOk, hv, truthy]
    · by_cases hle : q ≤ 0
      · simp [GasPort.costErrors, GasPort.CostOk, hv, truthy, hq, hle]
      · simp [GasPort.costErrors, GasPort.CostOk, hv, truthy, hq, hle]
        exact lt_of_not_le hle

/-- C6: `validateFormData` returns `isValid = true` with an empty error
list exactly when every required field is present (non-blank after
trimming if a string), every present vendor code matches `^E\d{8,9}$`
after trimming, every present contact number matches `^[+]?\d{7,15}$`
after separator stripping, and every present estimated cost is positive
(presence in the sense of the source's truthiness guards); a record
missing `contactNumber` fails with an error mentioning `contactNumber`,
and `"(555) 123-4567"` passes the phone check, stripping to
`"5551234567"`. -/
theorem c6_validateFormData_iff :
    (∀ d : GasPort.FormData,
      (∀ q, d.vendorCode ≠ JSVal.num q) →
      (∀ q, d.contactNumber ≠ JSVal.num q) →
      (∀ s, d.estimatedCost ≠ JSVal.str s) →
      (((GasPort.validateFormData d).1 = true ∧ (GasPort.validateFormData d).2 = []) ↔
        (GasPort.RequiredOk d ∧ GasPort.VendorOk d ∧ GasPort.PhoneOk d ∧ GasPort.CostOk d))) ∧
    ((GasPort.validateFormData
        ⟨JSVal.str "Jane Roe", JSVal.str "Team training", JSVal.num 1500,
          JSVal.str "Washington, DC", JSVal.undef, JSVal.undef⟩).1 = false ∧
      ∃ e ∈ (GasPort.validateFormData
        ⟨JSVal.str "Jane Roe", JSVal.str "Team training", JSVal.num 1500,
          JSVal.str "Washington, DC", JSVal.undef, JSVal.undef⟩).2,
        ∃ pre post, e = pre ++ "contactNumber" ++ post) ∧
    (GasPort.stripPhoneChars "(555) 123-4567".toList = "5551234567".toList ∧
      GasPort.phoneFormat (GasPort.stripPhoneChars "(555) 123-4567".toList) = true ∧
      (GasPort.validateFormData
        ⟨JSVal.str "Jane Roe", JSVal.str "Team training", JSVal.num 1500,
          JSVal.str "Washington, DC", JSVal.str "(555) 123-4567", JSVal.undef⟩).1 = true) := by
  refine ⟨?_, ⟨?_, ?_⟩, ?_, ?_, ?_⟩
  · intro d hV hC hE
    simp only [GasPort.validateFormData, List.isEmpty_iff, and_self]
    rw [List.append_eq_nil, List.append_eq_nil, List.append_eq_nil]
    rw [requiredErrors_nil_iff, vendorErrors_nil_iff d hV, phoneErrors_nil_iff d hC,
      costErrors_nil_iff d hE]
    tauto
  · decide
  · refine ⟨"Missing required field: contactNumber", ?_, "Missing required field: ", "", ?_⟩
    · decide
    · rfl
  · decide
  · decide
  · decide

/-- Witness for C6: the general equivalence applied to a concrete record
with a string phone number, a numeric cost and no vendor code. -/
theorem c6_validateFormData_iff_witness :
    ((GasPort.validateFormData
        ⟨JSVal.str "Jane Roe", JSVal.str "Team training", JSVal.num 1500,
          JSVal.str "Washington, DC", JSVal.str "(555) 123-4567", JSVal.undef⟩).1 = true ∧
      (GasPort.validateFormData
        ⟨JSVal.str "Jane Roe", JSVal.str "Team training", JSVal.num 1500,
          JSVal.str "Washington, DC", JSVal.str "(555) 123-4567", JSVal.undef⟩).2 = []) ↔
    (GasPort.RequiredOk
        ⟨JSVal.str "Jane Roe", JSVal.str "Team training", JSVal.num 1500,
          JSVal.str "Washington, DC", JSVal.str "(555) 123-4567", JSVal.undef⟩ ∧
      GasPort.VendorOk
        ⟨JSVal.str "Jane Roe", JSVal.str "Team training", JSVal.num 1500,
          JSVal.str "Washington, DC", JSVal.str "(555) 123-4567", JSVal.undef⟩ ∧
      GasPort.PhoneOk
        ⟨JSVal.str "Jane Roe", JSVal.str "Team training", JSVal.num 1500,
          JSVal.str "Washington, DC", JSVal.str "(555) 123-4567", JSVal.undef⟩ ∧
      GasPort.CostOk
        ⟨JSVal.str "Jane Roe", JSVal.str "Team training", JSVal.num 1500,
          JSVal.str "Washington, DC", JSVal.str "(555) 123-4567", JSVal.undef⟩) :=
  c6_validateFormData_iff.1 _ (fun q => by simp) (fun q => by simp) (fun s => by simp)

/-! ## Claim C7 -/

theorem eatDigits_append (xs ys : List Char) (h : ∀ c ∈ xs, c.isDigit = true) :
    DocProcessor.eatDigits xs.length (xs ++ ys) = some ys := by
  induction xs with
  | nil => rfl
  | cons x t ih =>
    have hx := h x (List.mem_cons_self _ _)
    simp only [List.length_cons, List.cons_append, DocProcessor.eatDigits, hx, ite_true]
    exact ih fun c hc => h c (List.mem_cons_of_mem _ hc)

theorem matchSepAt_shape (sep : Char) (mp dp yp : List Char)
    (hm : ∀ c ∈ mp, c.isDigit = true) (hd : ∀ c ∈ dp, c.isDigit = true)
    (hy : ∀ c ∈ yp, c.isDigit = true) (hy4 : yp.length = 4) :
    DocProcessor.matchSepAt sep (mp ++ sep :: (dp ++ sep :: yp)) mp.length dp.length = true := by
  unfold DocProcessor.matchSepAt
  rw [eatDigits_append mp _ hm]
  have e1 : DocProcessor.eatDigits dp.length (dp ++ sep :: yp) = some (sep :: yp) :=
    eatDigits_append dp _ hd
  have e2 : DocProcessor.eatDigits 4 yp = some [] := by
    have h0 := eatDigits_append yp [] hy
    rw [List.append_nil] at h0
    rw [← hy4]
    exact h0
  simp [DocProcessor.eatChar, e1, e2]

theorem startsDatePat_shape (sep : Char) (mp dp yp : List Char)
    (hm : ∀ c ∈ mp, c.isDigit = true) (hd : ∀ c ∈ dp, c.isDigit = true)
    (hy : ∀ c ∈ yp, c.isDigit = true)
    (hm2 : mp.length = 1 ∨ mp.length = 2) (hd2 : dp.length = 1 ∨ dp.length = 2)
    (hy4 : yp.length = 4) :
    DocProcessor.startsDatePat sep (mp ++ sep :: (dp ++ sep :: yp)) = true := by
  have key := matchSepAt_shape sep mp dp yp hm hd hy hy4
  unfold DocProcessor.startsDatePat
  rcases hm2 with h1 | h1 <;> rcases hd2 with h2 | h2 <;>
    rw [h1, h2] at key <;> simp [key]

theorem containsDatePat_cons (sep c : Char) (rest : List Char) :
    DocProcessor.containsDatePat sep (c :: rest) =
      (DocProcessor.startsDatePat sep (c :: rest) || DocProcessor.containsDatePat sep rest) :=
  rfl

theorem containsDatePat_shape (sep : Char) (mp dp yp : List Char)
    (hm : ∀ c ∈ mp, c.isDigit = true) (hd : ∀ c ∈ dp, c.isDigit = true)
    (hy : ∀ c ∈ yp, c.isDigit = true)
    (hm2 : mp.length = 1 ∨ mp.length = 2) (hd2 : dp.length = 1 ∨ dp.length = 2)
    (hy4 : yp.length = 4) :
    DocProcessor.containsDatePat sep (mp ++ sep :: (dp ++ sep :: yp)) = true := by
  have key := startsDatePat_shape sep mp dp yp hm hd hy hm2 hd2 hy4
  cases mp with
  | nil => simp at hm2
  | cons m t =>
    rw [List.cons_append, containsDatePat_cons]
    rw [← List.cons_append, key]
    rfl

theorem eatDigits_mem (n : ℕ) (l r : List Char) (h : DocProcessor.eatDigits n l = some r) :
    ∀ c ∈ r, c ∈ l := by
  induction n generalizing l with
  | zero =>
    simp only [DocProcessor.eatDigits, Option.some.injEq] at h
    subst h
    exact fun c hc => hc
  | succ k ih =>
    cases l with
    | nil => simp [DocProcessor.eatDigits] at h
    | cons x t =>
      simp only [DocProcessor.eatDigits] at h
      by_cases hx : x.isDigit = true
      · rw [hx] at h
        simp only [ite_true] at h
        exact fun c hc => List.mem_cons_of_mem _ (ih t h c hc)
      · rw [Bool.not_eq_true] at hx
        rw [hx] at h
        simp at h

theorem eatChar_same_mem (x : Char) (l r : List Char)
    (h : DocProcessor.eatChar x l = some r) : x ∈ l ∧ ∀ c ∈ r, c ∈ l := by
  cases l with
  | nil => simp [DocProcessor.eatChar] at h
  | cons y t =>
    simp only [DocProcessor.eatChar] at h
    by_cases hy : y = x
    · subst hy
      simp only [ite_true] at h
      cases h
      exact ⟨List.mem_cons_self _ _, fun c hc => List.mem_cons_of_mem _ hc⟩
    · simp [hy] at h

theorem matchSepAt_mem (sep : Char) (l : List Char) (a b : ℕ)
    (h : DocProcessor.matchSepAt sep l a b = true) : sep ∈ l := by
  unfold DocProcessor.matchSepAt at h
  cases h1 : DocProcessor.eatDigits a l with
  | none => rw [h1] at h; simp at h
  | some r1 =>
    rw [h1] at h
    simp only [Option.some_bind] at h
    cases h2 : DocProcessor.eatChar sep r1 with
    | none => rw [h2] at h; simp at h
    | some r2 =>
      have hmem := (eatChar_same_mem sep r1 r2 h2).1
      exact eatDigits_mem a l r1 h1 sep hmem

theorem startsDatePat_mem (sep : Char) (l : List Char)
    (h : DocProcessor.startsDatePat sep l = true) : sep ∈ l := by
  unfold DocProcessor.startsDatePat at h
  simp only [Bool.or_eq_true] at h
  rcases h with ((h | h) | h) | h <;> exact matchSepAt_mem sep l _ _ h

theorem containsDatePat_eq_false (sep : Char) (l : List Char) (h : sep ∉ l) :
    DocProcessor.containsDatePat sep l = false := by
  induction l with
  | nil => rfl
  | cons c t ih =>
    rw [containsDatePat_cons]
    have h1 : DocProcessor.startsDatePat sep (c :: t) = false := by
      cases hs : DocProcessor.startsDatePat sep (c :: t) with
      | false => rfl
      | true => exact absurd (startsDatePat_mem sep _ hs) h
    rw [h1, ih fun m => h (List.mem_cons_of_mem _ m)]
    rfl

theorem natOfDigits_replicate_zero_append (k : ℕ) (l : List Char) :
    natOfDigits (List.replicate k '0' ++ l) = natOfDigits l := by
  unfold natOfDigits
  rw [List.foldl_append]
  have : List.foldl (fun a c => 10 * a + (c.toNat - 48)) 0 (List.replicate k '0') = 0 := by
    induction k with
    | zero => rfl
    | succ n ih => simpa [List.replicate_succ]
  rw [this]

theorem natOfDigits_pad2 (l : List Char) :
    natOfDigits (DocProcessor.pad2 l) = natOfDigits l :=
  natOfDigits_replicate_zero_append _ l

theorem pad2_length (l : List Char) (h : l.length ≤ 2) :
    (DocProcessor.pad2 l).length = 2 := by
  simp only [DocProcessor.pad2, List.length_append, List.length_replicate]
  omega

theorem pad2_digits (l : List Char) (h : ∀ c ∈ l, c.isDigit = true) :
    ∀ c ∈ DocProcessor.pad2 l, c.isDigit = true := by
  intro c hc
  simp only [DocProcessor.pad2, List.mem_append, List.mem_replicate] at hc
  rcases hc with ⟨-, rfl⟩ | hc
  · decide
  · exact h c hc

theorem jsValidDate_shape (yp m2 d2 : List Char)
    (hy : yp.length = 4) (hm : m2.length = 2) (hd : d2.length = 2)
    (hyd : ∀ c ∈ yp, c.isDigit = true) (hmd : ∀ c ∈ m2, c.isDigit = true)
    (hdd : ∀ c ∈ d2, c.isDigit = true) :
    DocProcessor.jsValidDate (yp ++ '-' :: (m2 ++ '-' :: d2)) =
      DocProcessor.dateOk (natOfDigits yp) (natOfDigits m2) (natOfDigits d2) := by
  cases yp with
  | nil => simp at hy
  | cons y1 t1 =>
  cases t1 with
  | nil => simp at hy
  | cons y2 t2 =>
  cases t2 with
  | nil => simp at hy
  | cons y3 t3 =>
  cases t3 with
  | nil => simp at hy
  | cons y4 t4 =>
  cases t4 with
  | cons z t5 => simp at hy
  | nil =>
  cases m2 with
  | nil => simp at hm
  | cons m1 u1 =>
  cases u1 with
  | nil => simp at hm
  | cons mm2 u2 =>
  cases u2 with
  | cons z u3 => simp at hm
  | nil =>
  cases d2 with
  | nil => simp at hd
  | cons d1 v1 =>
  cases v1 with
  | nil => simp at hd
  | cons dd2 v2 =>
  cases v2 with
  | cons z v3 => simp at hd
  | nil =>
  simp only [List.cons_append, List.nil_append]
  have f1 := hyd y1 (by simp)
  have f2 := hyd y2 (by simp)
  have f3 := hyd y3 (by simp)
  have f4 := hyd y4 (by simp)
  have f5 := hmd m1 (by simp)
  have f6 := hmd mm2 (by simp)
  have f7 := hdd d1 (by simp)
  have f8 := hdd dd2 (by simp)
  simp [DocProcessor.jsValidDate, f1, f2, f3, f4, f5, f6, f7, f8]

theorem mem_dateShape {c : Char} (sep : Char) (mp dp yp : List Char)
    (hm : ∀ x ∈ mp, x.isDigit = true) (hd : ∀ x ∈ dp, x.isDigit = true)
    (hy : ∀ x ∈ yp, x.isDigit = true)
    (h : c ∈ mp ++ sep :: (dp ++ sep :: yp)) : c.isDigit = true ∨ c = sep := by
  simp only [List.mem_append, List.mem_cons] at h
  rcases h with h | h | h | h | h
  · exact Or.inl (hm c h)
  · exact Or.inr h
  · exact Or.inl (hd c h)
  · exact Or.inr h
  · exact Or.inl (hy c h)

theorem not_digit_not_mem_dateShape (x sep : Char) (mp dp yp : List Char)
    (hm : ∀ c ∈ mp, c.isDigit = true) (hd : ∀ c ∈ dp, c.isDigit = true)
    (hy : ∀ c ∈ yp, c.isDigit = true) (hx : x.isDigit = false) (hxs : x ≠ sep) :
    x ∉ mp ++ sep :: (dp ++ sep :: yp) := by
  intro h
  rcases mem_dateShape sep mp dp yp hm hd hy h with h | h
  · rw [h] at hx
    cases hx
  · exact hxs h

theorem digits_not_mem (x : Char) (l : List Char) (h : ∀ c ∈ l, c.isDigit = true)
    (hx : x.isDigit = false) : x ∉ l := by
  intro hmem
  rw [h x hmem] at hx
  cases hx

theorem normalizeDateRun_dateShape (sep : Char) (mp dp yp : List Char)
    (hm : ∀ c ∈ mp, c.isDigit = true) (hd : ∀ c ∈ dp, c.isDigit = true)
    (hy : ∀ c ∈ yp, c.isDigit = true)
    (hm2 : mp.length = 1 ∨ mp.length = 2) (hd2 : dp.length = 1 ∨ dp.length = 2)
    (hy4 : yp.length = 4) (hsep : sep = '/' ∨ sep = '-') :
    DocProcessor.normalizeDateRun (String.mk (mp ++ sep :: (dp ++ sep :: yp))) =
      (if DocProcessor.dateOk (natOfDigits yp) (natOfDigits mp) (natOfDigits dp) = true
        then String.mk (yp ++ '-' :: (DocProcessor.pad2 mp ++ '-' :: DocProcessor.pad2 dp))
        else String.mk (mp ++ sep :: (dp ++ sep :: yp))) := by
  have hml : mp.length ≤ 2 := by omega
  have hdl : dp.length ≤ 2 := by omega
  set l := mp ++ sep :: (dp ++ sep :: yp) with hl
  have htl : (String.mk l).toList = l := rfl
  have hsplit : splitOnChar sep l = [mp, dp, yp] := by
    rw [hl, splitOnChar_append_sep sep mp _ (digits_not_mem sep mp hm (by
      rcases hsep with rfl | rfl <;> decide))]
    rw [splitOnChar_append_sep sep dp _ (digits_not_mem sep dp hd (by
      rcases hsep with rfl | rfl <;> decide))]
    rw [splitOnChar_of_not_mem sep yp (digits_not_mem sep yp hy (by
      rcases hsep with rfl | rfl <;> decide))]
  have hiso : DocProcessor.isoJoin [mp, dp, yp] =
      yp ++ '-' :: (DocProcessor.pad2 mp ++ '-' :: DocProcessor.pad2 dp) := rfl
  have hvalid : DocProcessor.jsValidDate
      (yp ++ '-' :: (DocProcessor.pad2 mp ++ '-' :: DocProcessor.pad2 dp)) =
      DocProcessor.dateOk (natOfDigits yp) (natOfDigits mp) (natOfDigits dp) := by
    rw [jsValidDate_shape yp (DocProcessor.pad2 mp) (DocProcessor.pad2 dp) hy4
      (pad2_length mp hml) (pad2_length dp hdl) hy (pad2_digits mp hm) (pad2_digits dp hd)]
    rw [natOfDigits_pad2, natOfDigits_pad2]
  have hcontains : DocProcessor.containsDatePat sep l = true := by
    rw [hl]
    exact containsDatePat_shape sep mp dp yp hm hd hy hm2 hd2 hy4
  rcases hsep with rfl | rfl
  · -- slash form: the dash test on the original string is false
    have hnodash : DocProcessor.containsDatePat '-' l = false := by
      apply containsDatePat_eq_false
      exact not_digit_not_mem_dateShape '-' '/' mp dp yp hm hd hy (by decide) (by decide)
    unfold DocProcessor.normalizeDateRun
    simp only [htl, hcontains, hnodash, ite_true, Bool.false_eq_true, ite_false,
      hsplit, hiso, hvalid]
  · -- dash form: the slash test is false, the dash test rewrites
    have hnoslash : DocProcessor.containsDatePat '/' l = false := by
      apply containsDatePat_eq_false
      exact not_digit_not_mem_dateShape '/' '-' mp dp yp hm hd hy (by decide) (by decide)
    unfold DocProcessor.normalizeDateRun
    simp only [htl, hnoslash, hcontains, ite_true, Bool.false_eq_true, ite_false,
      hsplit, hiso, hvalid]

/-- C7: `normalizeDate` rewrites every `MM/DD/YYYY` or `MM-DD-YYYY` input
(1-2 digit month/day, 4-digit year) to zero-padded `YYYY-MM-DD` when that
names a valid calendar date, and returns the input unchanged otherwise;
concretely `"05/01/2025" ↦ "2025-05-01"` and `"13/45/2025"` (no such
date) is returned unchanged. -/
theorem c7_normalizeDate :
    (∀ (mp dp yp : List Char),
      (∀ c ∈ mp, c.isDigit = true) → (∀ c ∈ dp, c.isDigit = true) →
      (∀ c ∈ yp, c.isDigit = true) →
      (mp.length = 1 ∨ mp.length = 2) → (dp.length = 1 ∨ dp.length = 2) → yp.length = 4 →
      (DocProcessor.normalizeDate (String.mk (mp ++ '/' :: (dp ++ '/' :: yp))) =
        some (if DocProcessor.dateOk (natOfDigits yp) (natOfDigits mp) (natOfDigits dp) = true
          then String.mk (yp ++ '-' :: (DocProcessor.pad2 mp ++ '-' :: DocProcessor.pad2 dp))
          else String.mk (mp ++ '/' :: (dp ++ '/' :: yp))) ∧
       DocProcessor.normalizeDate (String.mk (mp ++ '-' :: (dp ++ '-' :: yp))) =
        some (if DocProcessor.dateOk (natOfDigits yp) (natOfDigits mp) (natOfDigits dp) = true
          then String.mk (yp ++ '-' :: (DocProcessor.pad2 mp ++ '-' :: DocProcessor.pad2 dp))
          else String.mk (mp ++ '-' :: (dp ++ '-' :: yp))))) ∧
    DocProcessor.normalizeDate "05/01/2025" = some "2025-05-01" ∧
    DocProcessor.normalizeDate "13/45/2025" = some "13/45/2025" := by
  refine ⟨?_, ?_, ?_⟩
  · intro mp dp yp hm hd hy hm2 hd2 hy4
    constructor
    · have hne : String.mk (mp ++ '/' :: (dp ++ '/' :: yp)) ≠ "" := by
        intro h
        have h2 := congrArg String.data h
        simp at h2
      unfold DocProcessor.normalizeDate
      rw [if_neg hne]
      rw [normalizeDateRun_dateShape '/' mp dp yp hm hd hy hm2 hd2 hy4 (Or.inl rfl)]
    · have hne : String.mk (mp ++ '-' :: (dp ++ '-' :: yp)) ≠ "" := by
        intro h
        have h2 := congrArg String.data h
        simp at h2
      unfold DocProcessor.normalizeDate
      rw [if_neg hne]
      rw [normalizeDateRun_dateShape '-' mp dp yp hm hd hy hm2 hd2 hy4 (Or.inr rfl)]
  · decide
  · decide

/-- Witness for C7: the general rewrite rule applied to the concrete
month/day/year digit lists of `"05/01/2025"`. -/
theorem c7_normalizeDate_witness :
    DocProcessor.normalizeDate
        (String.mk (['0', '5'] ++ '/' :: (['0', '1'] ++ '/' :: ['2', '0', '2', '5']))) =
      some (if DocProcessor.dateOk (natOfDigits ['2', '0', '2', '5'])
            (natOfDigits ['0', '5']) (natOfDigits ['0', '1']) = true
        then String.mk (['2', '0', '2', '5'] ++ '-' ::
          (DocProcessor.pad2 ['0', '5'] ++ '-' :: DocProcessor.pad2 ['0', '1']))
        else String.mk (['0', '5'] ++ '/' :: (['0', '1'] ++ '/' :: ['2', '0', '2', '5']))) :=
  (c7_normalizeDate.1 ['0', '5'] ['0', '1'] ['2', '0', '2', '5'] (by decide) (by decide)
    (by decide) (Or.inr (by decide)) (Or.inr (by decide)) (by decide)).1

/-! ## Claim C8 -/

theorem jsValidDate_ne_nil (l : List Char) (h : DocProcessor.jsValidDate l = true) :
    l ≠ [] := by
  intro he
  subst he
  exact absurd h (by decide)

theorem normalizeDateRun_ne_empty (s : String) (hs : s ≠ "") :
    DocProcessor.normalizeDateRun s ≠ "" := by
  have key : ∀ X : List Char, (if DocProcessor.jsValidDate X = true then String.mk X else s) ≠ "" := by
    intro X
    split
    · next h =>
      intro he
      exact jsValidDate_ne_nil _ h (congrArg String.data he)
    · exact hs
  simp only [DocProcessor.normalizeDateRun]
  apply key

theorem filterMap_some_of {α β : Type} (l : List α) (f : α → Option β) (g : α → β)
    (h : ∀ a ∈ l, f a = some (g a)) : l.filterMap f = l.map g := by
  induction l with
  | nil => rfl
  | cons x t ih =>
    rw [List.filterMap_cons, h x (List.mem_cons_self _ _), List.map_cons]
    rw [ih fun a ha => h a (List.mem_cons_of_mem _ ha)]

theorem combineStops_eq_map (dates : List String) (locations : List DocProcessor.Location)
    (hd : ∀ s ∈ dates, s ≠ "") (hl : ∀ loc ∈ locations, loc.city ≠ "") :
    DocProcessor.combineStops dates locations =
      (List.range (max dates.length locations.length)).map
        (DocProcessor.mkStop dates locations) := by
  unfold DocProcessor.combineStops
  apply filterMap_some_of
  intro i hi
  rw [List.mem_range] at hi
  have hcase : i < dates.length ∨ i < locations.length := by
    rcases lt_max_iff.mp hi with h | h
    · exact Or.inl h
    · exact Or.inr h
  have hcond : (DocProcessor.truthyOpt (DocProcessor.mkStop dates locations i).city ||
      DocProcessor.truthyOpt (DocProcessor.mkStop dates locations i).date) = true := by
    rcases hcase with h | h
    · have hmem : dates.getD i "" ∈ dates := by
        rw [List.getD_eq_getElem dates "" h]
        exact List.getElem_mem h
      have hne := hd _ hmem
      have hdate : (DocProcessor.mkStop dates locations i).date =
          some (DocProcessor.normalizeDateRun (dates.getD i "")) := by
        simp only [DocProcessor.mkStop, h, ite_true, DocProcessor.normalizeDate, hne,
          if_neg, ite_false]
      rw [hdate]
      simp only [DocProcessor.truthyOpt, Bool.or_eq_true]
      exact Or.inr (by simpa using normalizeDateRun_ne_empty _ hne)
    · have hmem : locations.getD i ⟨"", ""⟩ ∈ locations := by
        rw [List.getD_eq_getElem locations ⟨"", ""⟩ h]
        exact List.getElem_mem h
      have hne := hl _ hmem
      have hcity : (DocProcessor.mkStop dates locations i).city =
          some (locations.getD i ⟨"", ""⟩).city := by
        simp only [DocProcessor.mkStop, h, ite_true]
      rw [hcity]
      simp only [DocProcessor.truthyOpt, Bool.or_eq_true]
      exact Or.inl (by simpa using hne)
  simp only [hcond, ite_true]

/-- C8: the itinerary combination loop of `extractItineraryDataEnhanced`
pairs the `i`-th extracted date with the `i`-th extracted location; with
more dates than locations the last location is reused for the extra
(dated) stops, with more locations than dates the extra stops carry no
date; a stop is emitted whenever it has a (truthy) city or date — so with
nonempty dates and cities, all `max n m` stops are emitted.  Concretely, 3
dates and 1 location yield 3 stops sharing that location, and 1 date and 3
locations yield 3 stops of which exactly the first is dated. -/
theorem c8_itinerary_pairing :
    (∀ (dates : List String) (locations : List DocProcessor.Location),
      (∀ s ∈ dates, s ≠ "") → (∀ loc ∈ locations, loc.city ≠ "") →
      ((DocProcessor.combineStops dates locations).length =
        max dates.length locations.length ∧
      (∀ i, i < dates.length →
        (DocProcessor.mkStop dates locations i).date =
          DocProcessor.normalizeDate (dates.getD i "")) ∧
      (∀ i, dates.length ≤ i → (DocProcessor.mkStop dates locations i).date = none) ∧
      (∀ i, i < locations.length →
        (DocProcessor.mkStop dates locations i).city =
          some (locations.getD i ⟨"", ""⟩).city ∧
        (DocProcessor.mkStop dates locations i).state =
          some (locations.getD i ⟨"", ""⟩).state) ∧
      (∀ i loc, locations.length ≤ i → locations.getLast? = some loc →
        (DocProcessor.mkStop dates locations i).city = some loc.city ∧
        (DocProcessor.mkStop dates locations i).state = some loc.state))) ∧
    ((DocProcessor.combineStops ["01/02/2025", "01/03/2025", "01/04/2025"]
        [⟨"Washington", "DC"⟩]).map (fun st => st.city) =
      [some "Washington", some "Washington", some "Washington"] ∧
     (DocProcessor.combineStops ["01/02/2025", "01/03/2025", "01/04/2025"]
        [⟨"Washington", "DC"⟩]).map (fun st => st.date) =
      [some "2025-01-02", some "2025-01-03", some "2025-01-04"]) ∧
    ((DocProcessor.combineStops ["01/02/2025"]
        [⟨"Washington", "DC"⟩, ⟨"Denver", "CO"⟩, ⟨"Austin", "TX"⟩]).map (fun st => st.date) =
      [some "2025-01-02", none, none] ∧
     (DocProcessor.combineStops ["01/02/2025"]
        [⟨"Washington", "DC"⟩, ⟨"Denver", "CO"⟩, ⟨"Austin", "TX"⟩]).map (fun st => st.city) =
      [some "Washington", some "Denver", some "Austin"]) := by
  refine ⟨?_, ⟨?_, ?_⟩, ?_, ?_⟩
  · intro dates locations hd hl
    refine ⟨?_, ?_, ?_, ?_, ?_⟩
    · rw [combineStops_eq_map dates locations hd hl]
      simp
    · intro i hi
      simp only [DocProcessor.mkStop, hi, ite_true]
    · intro i hi
      simp only [DocProcessor.mkStop, Nat.not_lt.mpr hi, ite_false]
    · intro i hi
      constructor <;> simp only [DocProcessor.mkStop, hi, ite_true]
    · intro i loc hi hlast
      constructor <;>
        simp only [DocProcessor.mkStop, Nat.not_lt.mpr hi, ite_false, hlast]
  · decide
  · decide
  · decide
  · decide

/-- Witness for C8: the general pairing facts applied to 3 concrete dates
and 1 concrete location. -/
theorem c8_itinerary_pairing_witness :
    (DocProcessor.combineStops ["01/02/2025", "01/03/2025", "01/04/2025"]
      [⟨"Washington", "DC"⟩]).length =
      max (["01/02/2025", "01/03/2025", "01/04/2025"] : List String).length
        ([⟨"Washington", "DC"⟩] : List DocProcessor.Location).length :=
  (c8_itinerary_pairing.1 ["01/02/2025", "01/03/2025", "01/04/2025"]
    [⟨"Washington", "DC"⟩] (by decide) (by decide)).1

/-! ## Claim C9 -/

theorem selBy_go (κ : GasMain.Ymd → ℤ) (f : GasMain.CsvRow → Option GasMain.Ymd) :
    ∀ (recs : List GasMain.CsvRow) (acc : Option GasMain.Ymd),
      (recs.foldl (fun a r =>
          match f r with
          | none => a
          | some d =>
            match a with
            | none => some d
            | some cur => if κ d < κ cur then some d else a) acc = none ↔
        (acc = none ∧ recs.filterMap f = [])) ∧
      (∀ d, recs.foldl (fun a r =>
          match f r with
          | none => a
          | some d =>
            match a with
            | none => some d
            | some cur => if κ d < κ cur then some d else a) acc = some d →
        (acc = some d ∨ d ∈ recs.filterMap f) ∧
        (∀ a, acc = some a → κ d ≤ κ a) ∧
        (∀ x ∈ recs.filterMap f, κ d ≤ κ x)) := by
  intro recs
  induction recs with
  | nil =>
    intro acc
    constructor
    · simp
    · intro d h
      simp only [List.foldl_nil] at h
      refine ⟨Or.inl h, ?_, ?_⟩
      · intro a ha
        rw [h] at ha
        cases ha
        exact le_refl _
      · intro x hx
        simp at hx
  | cons r t ih =>
    intro acc
    simp only [List.foldl_cons]
    cases hf : f r with
    | none =>
      simp only [hf]
      have ihx := ih acc
      have hfm : (r :: t).filterMap f = t.filterMap f := by
        rw [List.filterMap_cons, hf]
      rw [hfm]
      exact ihx
    | some c =>
      simp only [hf]
      have hfm : (r :: t).filterMap f = c :: t.filterMap f := by
        rw [List.filterMap_cons, hf]
      rw [hfm]
      cases acc with
      | none =>
        have ihx := ih (some c)
        constructor
        · rw [ihx.1]
          simp
        · intro d hd
          have h2 := ihx.2 d hd
          have hdc : κ d ≤ κ c := h2.2.1 c rfl
          refine ⟨?_, ?_, ?_⟩
          · rcases h2.1 with h | h
            · cases h
              exact Or.inr (List.mem_cons_self _ _)
            · exact Or.inr (List.mem_cons_of_mem _ h)
          · intro a ha
            cases ha
          · intro x hx
            rcases List.mem_cons.mp hx with rfl | hx
            · exact hdc
            · exact h2.2.2 x hx
      | some cur =>
        by_cases hlt : κ c < κ cur
        · simp only [hlt, ite_true]
          have ihx := ih (some c)
          constructor
          · rw [ihx.1]
            simp
          · intro d hd
            have h2 := ihx.2 d hd
            have hdc : κ d ≤ κ c := h2.2.1 c rfl
            refine ⟨?_, ?_, ?_⟩
            · rcases h2.1 with h | h
              · cases h
                exact Or.inr (List.mem_cons_self _ _)
              · exact Or.inr (List.mem_cons_of_mem _ h)
            · intro a ha
              cases ha
              exact le_of_lt (lt_of_le_of_lt hdc hlt)
            · intro x hx
              rcases List.mem_cons.mp hx with rfl | hx
              · exact hdc
              · exact h2.2.2 x hx
        · simp only [hlt, ite_false]
          have ihx := ih (some cur)
          constructor
          · rw [ihx.1]
            simp
          · intro d hd
            have h2 := ihx.2 d hd
            have hdcur : κ d ≤ κ cur := h2.2.1 cur rfl
            refine ⟨?_, ?_, ?_⟩
            · rcases h2.1 with h | h
              · exact Or.inl h
              · exact Or.inr (List.mem_cons_of_mem _ h)
            · intro a ha
              cases ha
              exact hdcur
            · intro x hx
              rcases List.mem_cons.mp hx with rfl | hx
              · exact le_trans hdcur (not_lt.mp hlt)
              · exact h2.2.2 x hx

theorem selBy_none_iff (κ : GasMain.Ymd → ℤ) (f : GasMain.CsvRow → Option GasMain.Ymd)
    (recs : List GasMain.CsvRow) :
    GasMain.selBy κ f recs = none ↔ recs.filterMap f = [] := by
  unfold GasMain.selBy
  rw [(selBy_go κ f recs none).1]
  simp

theorem selBy_some_spec (κ : GasMain.Ymd → ℤ) (f : GasMain.CsvRow → Option GasMain.Ymd)
    (recs : List GasMain.CsvRow) (d : GasMain.Ymd)
    (h : GasMain.selBy κ f recs = some d) :
    d ∈ recs.filterMap f ∧ ∀ x ∈ recs.filterMap f, κ d ≤ κ x := by
  unfold GasMain.selBy at h
  have h2 := (selBy_go κ f recs none).2 d h
  refine ⟨?_, h2.2.2⟩
  rcases h2.1 with h | h
  · cases h
  · exact h

theorem find?_eq_filter_head? {α : Type} (p : α → Bool) (l : List α) :
    l.find? p = (l.filter p).head? := by
  induction l with
  | nil => rfl
  | cons x t ih =>
    cases hx : p x with
    | true =>
      rw [List.find?_cons_of_pos _ hx, List.filter_cons_of_pos hx]
      rfl
    | false =>
      rw [List.find?_cons_of_neg _ (by simp [hx]), List.filter_cons_of_neg (by simp [hx]), ih]

theorem foldl_add_eq_sum {α : Type} (g : α → ℚ) (l : List α) :
    ∀ init : ℚ, l.foldl (fun s r => s + g r) init = init + (l.map g).sum := by
  induction l with
  | nil => intro init; simp
  | cons x t ih =>
    intro init
    simp only [List.foldl_cons, List.map_cons, List.sum_cons, ih]
    ring

theorem jsParseFloat_digits (s : String) (ds : List Char)
    (hs : s.toList = ds) (hd : ∀ c ∈ ds, c.isDigit = true) (hne : ds ≠ []) :
    jsParseFloat s = some (natOfDigits ds) := by
  unfold jsParseFloat
  rw [hs]
  have h := parseFloatChars_lit false ds [] hd (by simp) (Or.inl hne)
  rw [show TarBuild.litChars false ds [] = ds from by simp [TarBuild.litChars]] at h
  rw [h]
  congr 1
  simp only [TarBuild.litVal, show natOfDigits ([] : List Char) = 0 from rfl]
  norm_num

/-- C9 (amended): for one TAR-ID group `base :: rest`, the aggregation
selects the earliest parseable departure/date-submitted value as trip
start and the latest parseable return value as trip end (formatted back to
`YYYY-MM-DD`), the first non-blank destination and travel purpose in row
order, and a total cost equal to the FIRST ROW's explicit `Total Actual
Cost` when it parses non-zero, falling back to the sum of all rows' `Cost
Type Value` entries otherwise. -/
theorem c9_bulk_aggregation (base : GasMain.CsvRow) (rest : List GasMain.CsvRow) :
    (GasMain.startValues (base :: rest) ≠ [] →
      ∃ d ∈ GasMain.startValues (base :: rest),
        (∀ x ∈ GasMain.startValues (base :: rest), d.key ≤ x.key) ∧
        (GasMain.aggregateGroup base rest).departureDate = d.iso) ∧
    (GasMain.returnValues (base :: rest) ≠ [] →
      ∃ d ∈ GasMain.returnValues (base :: rest),
        (∀ x ∈ GasMain.returnValues (base :: rest), x.key ≤ d.key) ∧
        (GasMain.aggregateGroup base rest).returnDate = d.iso) ∧
    (∀ r, ((base :: rest).filter fun r => strTrim r.destination != "").head? = some r →
      (GasMain.aggregateGroup base rest).destination = r.destination) ∧
    (∀ r, ((base :: rest).filter fun r => strTrim r.travelPurpose != "").head? = some r →
      (GasMain.aggregateGroup base rest).travelPurpose = r.travelPurpose) ∧
    (GasMain.parseFloatOr0 base.totalActualCost ≠ 0 →
      (GasMain.aggregateGroup base rest).totalActualCost =
        GasMain.parseFloatOr0 base.totalActualCost) ∧
    (GasMain.parseFloatOr0 base.totalActualCost = 0 →
      (GasMain.aggregateGroup base rest).totalActualCost =
        GasMain.sumCostTypeValues (base :: rest)) := by
  refine ⟨?_, ?_, ?_, ?_, ?_, ?_⟩
  · intro hne
    cases hsel : GasMain.selBy (fun x => (x.key : ℤ)) GasMain.startCandidate (base :: rest) with
    | none =>
      exact absurd ((selBy_none_iff _ _ _).mp hsel) hne
    | some d =>
      have hspec := selBy_some_spec _ _ _ _ hsel
      refine ⟨d, hspec.1, ?_, ?_⟩
      · intro x hx
        have := hspec.2 x hx
        exact_mod_cast this
      · simp only [GasMain.aggregateGroup, hsel]
  · intro hne
    cases hsel : GasMain.selBy (fun x => -(x.key : ℤ)) GasMain.endCandidate (base :: rest) with
    | none =>
      exact absurd ((selBy_none_iff _ _ _).mp hsel) hne
    | some d =>
      have hspec := selBy_some_spec _ _ _ _ hsel
      refine ⟨d, hspec.1, ?_, ?_⟩
      · intro x hx
        have := hspec.2 x hx
        omega
      · simp only [GasMain.aggregateGroup, hsel]
  · intro r hr
    rw [← find?_eq_filter_head?] at hr
    simp only [GasMain.aggregateGroup, hr]
  · intro r hr
    rw [← find?_eq_filter_head?] at hr
    simp only [GasMain.aggregateGroup, hr]
  · intro hnz
    simp only [GasMain.aggregateGroup, hnz, ne_eq, not_false_eq_true, ite_true]
  · intro hz
    simp only [GasMain.aggregateGroup, hz, ne_eq, not_true_eq_false, ite_false]
    rw [foldl_add_eq_sum]
    simp [GasMain.sumCostTypeValues]

/-- C9 (counterexample): in a group whose first row has an explicit
`Total Actual Cost` of `"0"` and whose second row has `"500"`, the first
non-zero explicit total in the group is `500`, but the aggregation
returns `300` — the sum of the `Cost Type Value` entries — because only
the FIRST row's explicit total is consulted. -/
theorem c9_counterexample :
    (GasMain.aggregateGroup ⟨"", "", "", "", "", "", "0", "100", ""⟩
      [⟨"", "", "", "", "", "", "500", "200", ""⟩]).totalActualCost = 300 ∧
    GasMain.firstNonzeroTotalSpec [⟨"", "", "", "", "", "", "0", "100", ""⟩,
      ⟨"", "", "", "", "", "", "500", "200", ""⟩] = some 500 ∧
    (300 : ℚ) ≠ 500 := by
  have h0 : jsParseFloat "0" = some 0 := by
    have := jsParseFloat_digits "0" ['0'] (by decide) (by decide) (by decide)
    rw [show natOfDigits ['0'] = 0 from by decide] at this
    exact_mod_cast this
  have h500 : jsParseFloat "500" = some 500 := by
    have := jsParseFloat_digits "500" ['5', '0', '0'] (by decide) (by decide) (by decide)
    rw [show natOfDigits ['5', '0', '0'] = 500 from by decide] at this
    exact_mod_cast this
  have h100 : jsParseFloat "100" = some 100 := by
    have := jsParseFloat_digits "100" ['1', '0', '0'] (by decide) (by decide) (by decide)
    rw [show natOfDigits ['1', '0', '0'] = 100 from by decide] at this
    exact_mod_cast this
  have h200 : jsParseFloat "200" = some 200 := by
    have := jsParseFloat_digits "200" ['2', '0', '0'] (by decide) (by decide) (by decide)
    rw [show natOfDigits ['2', '0', '0'] = 200 from by decide] at this
    exact_mod_cast this
  refine ⟨?_, ?_, by norm_num⟩
  · simp only [GasMain.aggregateGroup, GasMain.parseFloatOr0, h0, h100, h200,
      Option.getD_some, List.foldl_cons, List.foldl_nil]
    norm_num
  · simp only [GasMain.firstNonzeroTotalSpec, List.filterMap_cons, h0, h500,
      List.filterMap_nil]
    norm_num

/-- Witness for C9: the amended aggregation facts applied to a concrete
two-row group with parseable ISO dates. -/
theorem c9_bulk_aggregation_witness :
    ∃ d ∈ GasMain.startValues
        [⟨"2025-01-10", "", "2025-01-20", "Denver, CO, USA", "Conference", "", "0", "100", ""⟩,
         ⟨"2025-01-05", "", "2025-01-25", "", "", "", "", "200", ""⟩],
      (∀ x ∈ GasMain.startValues
        [⟨"2025-01-10", "", "2025-01-20", "Denver, CO, USA", "Conference", "", "0", "100", ""⟩,
         ⟨"2025-01-05", "", "2025-01-25", "", "", "", "", "200", ""⟩], d.key ≤ x.key) ∧
      (GasMain.aggregateGroup
        ⟨"2025-01-10", "", "2025-01-20", "Denver, CO, USA", "Conference", "", "0", "100", ""⟩
        [⟨"2025-01-05", "", "2025-01-25", "", "", "", "", "200", ""⟩]).departureDate = d.iso :=
  (c9_bulk_aggregation
    ⟨"2025-01-10", "", "2025-01-20", "Denver, CO, USA", "Conference", "", "0", "100", ""⟩
    [⟨"2025-01-05", "", "2025-01-25", "", "", "", "", "200", ""⟩]).1 (by decide)

/-! ## Claim C10 -/

theorem mem_collapseWsAux (l : List Char) :
    ∀ (b : Bool) (c : Char), c ∈ DocProcessor.collapseWsAux b l →
      c = ' ' ∨ (c ∈ l ∧ isWS c = false) := by
  induction l with
  | nil =>
    intro b c h
    simp [DocProcessor.collapseWsAux] at h
  | cons x t ih =>
    intro b c h
    by_cases hx : isWS x = true
    · simp only [DocProcessor.collapseWsAux, hx, ite_true] at h
      cases b with
      | true =>
        simp only [ite_true] at h
        rcases ih true c h with h1 | ⟨h1, h2⟩
        · exact Or.inl h1
        · exact Or.inr ⟨List.mem_cons_of_mem _ h1, h2⟩
      | false =>
        simp only [Bool.false_eq_true, ite_false] at h
        rcases List.mem_cons.mp h with rfl | h2
        · exact Or.inl rfl
        · rcases ih true c h2 with h1 | ⟨h1, h3⟩
          · exact Or.inl h1
          · exact Or.inr ⟨List.mem_cons_of_mem _ h1, h3⟩
    · have hx' : isWS x = false := by
        cases hxx : isWS x
        · rfl
        · exact absurd hxx hx
      simp only [DocProcessor.collapseWsAux, hx', Bool.false_eq_true, ite_false] at h
      rcases List.mem_cons.mp h with rfl | h2
      · exact Or.inr ⟨List.mem_cons_self _ _, hx'⟩
      · rcases ih false c h2 with h1 | ⟨h1, h3⟩
        · exact Or.inl h1
        · exact Or.inr ⟨List.mem_cons_of_mem _ h1, h3⟩

theorem collapseWs_no_hidden_ws (l : List Char) (w : Char) (hw : isWS w = true)
    (hw2 : w ≠ ' ') : w ∉ DocProcessor.collapseWs l := by
  intro h
  rcases mem_collapseWsAux l false w h with h1 | ⟨-, h2⟩
  · exact hw2 h1
  · rw [hw] at h2
    cases h2

theorem replBlank_of_no_nl (l : List Char) (h : '\n' ∉ l) :
    DocProcessor.replBlank l = l := by
  induction l with
  | nil => simp [DocProcessor.replBlank]
  | cons x t ih =>
    have hx : ¬(x = '\n') := fun e => h (e ▸ List.mem_cons_self _ _)
    rw [DocProcessor.replBlank, if_neg hx, ih fun m => h (List.mem_cons_of_mem _ m)]

theorem mem_dollarFix (l : List Char) (c : Char) (h : c ∈ DocProcessor.dollarFix l) :
    c ∈ l := by
  induction l using DocProcessor.dollarFix.induct with
  | case1 => simp [DocProcessor.dollarFix] at h
  | case2 rest ih =>
    rw [DocProcessor.dollarFix, if_pos rfl] at h
    rcases List.mem_cons.mp h with rfl | h2
    · exact List.mem_cons_self _ _
    · exact List.mem_cons_of_mem _ (List.Sublist.mem (ih h2) (List.dropWhile_sublist _))
  | case3 x rest hx ih =>
    rw [DocProcessor.dollarFix, if_neg hx] at h
    rcases List.mem_cons.mp h with rfl | h2
    · exact List.mem_cons_self _ _
    · exact List.mem_cons_of_mem _ (ih h2)

theorem mem_fixBefore (isTarget : Char → Bool) (rep : Char) (l : List Char) (c : Char)
    (h : c ∈ DocProcessor.fixBefore isTarget rep l) : c = rep ∨ c ∈ l := by
  induction l with
  | nil => simp [DocProcessor.fixBefore] at h
  | cons x t ih =>
    simp only [DocProcessor.fixBefore] at h
    rcases List.mem_cons.mp h with h1 | h1
    · split at h1
      · exact Or.inl h1
      · exact Or.inr (h1 ▸ List.mem_cons_self _ _)
    · rcases ih h1 with h2 | h2
      · exact Or.inl h2
      · exact Or.inr (List.mem_cons_of_mem _ h2)

theorem mem_trimChars (l : List Char) (c : Char) (h : c ∈ trimChars l) : c ∈ l := by
  unfold trimChars at h
  rw [List.mem_reverse] at h
  have h2 := List.Sublist.mem h (List.dropWhile_sublist _)
  rw [List.mem_reverse] at h2
  exact List.Sublist.mem h2 (List.dropWhile_sublist _)

/-- C10: `cleanExtractedText` never emits a newline or carriage return —
the leading `\s+ → " "` collapse removes all line breaks, every later
stage only removes characters or substitutes `'0'`/`'1'`/`'5'`, and the
blank-line collapse step (`/\n\s*\n/ → "\n"`) is therefore vacuous: it is
the identity on the output of the whitespace collapse. -/
theorem c10_clean_text_no_newlines :
    ∀ s : String,
      ('\n' ∉ (DocProcessor.cleanExtractedText s).toList ∧
       '\r' ∉ (DocProcessor.cleanExtractedText s).toList) ∧
      DocProcessor.replBlank (DocProcessor.collapseWs s.toList) =
        DocProcessor.collapseWs s.toList := by
  intro s
  have hstep2 : DocProcessor.replBlank (DocProcessor.collapseWs s.toList) =
      DocProcessor.collapseWs s.toList :=
    replBlank_of_no_nl _ (collapseWs_no_hidden_ws _ '\n' (by decide) (by decide))
  have chase : ∀ w : Char, isWS w = true → w ≠ ' ' → w ≠ '0' → w ≠ '1' → w ≠ '5' →
      w ∉ (DocProcessor.cleanExtractedText s).toList := by
    intro w hw hsp h0 h1 h5 hmem
    unfold DocProcessor.cleanExtractedText at hmem
    by_cases hse : s = ""
    · rw [if_pos hse] at hmem
      simp at hmem
    · rw [if_neg hse] at hmem
      have h2 : w ∈ trimChars
          (DocProcessor.fixBefore (fun c => c = 'S' || c = 's') '5'
            (DocProcessor.fixBefore (fun c => c = 'I' || c = 'l') '1'
              (DocProcessor.fixBefore (fun c => c = 'O' || c = 'o') '0'
                (DocProcessor.dollarFix
                  ((DocProcessor.replBlank
                    (DocProcessor.collapseWs s.toList)).filter DocProcessor.isAllowedChar))))) :=
        hmem
      have h3 := mem_trimChars _ _ h2
      rcases mem_fixBefore _ _ _ _ h3 with h4 | h4
      · exact h5 h4
      rcases mem_fixBefore _ _ _ _ h4 with h6 | h6
      · exact h1 h6
      rcases mem_fixBefore _ _ _ _ h6 with h7 | h7
      · exact h0 h7
      have h8 := mem_dollarFix _ _ h7
      have h9 := (List.mem_filter.mp h8).1
      rw [hstep2] at h9
      exact collapseWs_no_hidden_ws s.toList w hw hsp h9
  exact ⟨⟨chase '\n' (by decide) (by decide) (by decide) (by decide) (by decide),
    chase '\r' (by decide) (by decide) (by decide) (by decide) (by decide)⟩, hstep2⟩
